import Mathlib

/-!
Verification development for the SPE3 file reader (`princeton3/SPE3read.py`).

The Python source is shallowly embedded: a file is a list of bytes
(`List Nat`), `numpy.fromfile` becomes a pure function returning the list of
decoded elements (as raw little-endian bit patterns), the decode pipeline of
`SPE3map.readData` becomes an `Except`-valued function over the file, and the
XML footer handling (done in Python through the external `xmltodict` package,
which is not part of this repository) is modelled from the spec as a
simplified XML document parser/serializer over `List Char`.
-/

/-! ## Element types (numpy dtypes used by the reader) -/

/-- The numpy element types that appear in `SPE3read.py`:
`pl.uint16`, `pl.uint32`, `pl.uint64`, `pl.float32`. -/
inductive NType where
  | uint16
  | uint32
  | uint64
  | float32
  deriving DecidableEq, Repr

/-- `sizeof` of the element type in bytes (numpy `dtype().nbytes`). -/
def NType.nbytes : NType → Nat
  | .uint16 => 2
  | .uint32 => 4
  | .uint64 => 8
  | .float32 => 4

/-! ## Little-endian byte decoding and `numpy.fromfile` -/

/-- Value of a little-endian byte sequence (least significant byte first). -/
def leVal : List Nat → Nat
  | [] => 0
  | b :: bs => b + 256 * leVal bs

/-- Embedding of `pl.fromfile(fid, ntype, count)` after `fid.seek(pos)`, for a
nonnegative `count`.  numpy reads as many *complete* elements as remain
available from `pos`, up to `count`; if fewer are available it silently
returns a shorter array (it does not raise).  Each element is returned as its
raw little-endian bit pattern. -/
def fromfile (file : List Nat) (pos : Nat) (t : NType) (count : Nat) : List Nat :=
  (List.range (min count ((file.length - pos) / t.nbytes))).map
    (fun i => leVal ((file.drop (pos + i * t.nbytes)).take t.nbytes))

/-- Truncation-toward-zero division of an `Int` by a `Nat`, mirroring
Python `int(a / b)` (true division followed by `int(...)` truncation) for
values in the exactly-representable range. -/
def intTruncDiv (a : Int) (b : Nat) : Int :=
  if 0 ≤ a then ((a.toNat / b : Nat) : Int) else -(((-a).toNat / b : Nat) : Int)

/-- `pl.fromfile` with a possibly negative count: numpy treats a negative
`count` as "read everything remaining". -/
def fromfileI (file : List Nat) (pos : Nat) (t : NType) (count : Int) : List Nat :=
  if count < 0 then fromfile file pos t ((file.length - pos) / t.nbytes)
  else fromfile file pos t count.toNat

/-! ## IEEE-754 binary32 decoding (exact, into `ℚ` plus infinities/NaN) -/

/-- An IEEE-754 single-precision value, decoded exactly. -/
inductive F32 where
  | finite (q : ℚ)
  | inf (neg : Bool)
  | nan
  deriving DecidableEq, Repr

/-- Exact decoding of a 32-bit pattern as an IEEE-754 binary32 value. -/
def decodeF32 (bits : Nat) : F32 :=
  let b : Nat := bits % 2 ^ 32
  let sign : Nat := b / 2 ^ 31
  let ex : Nat := b / 2 ^ 23 % 2 ^ 8
  let mant : Nat := b % 2 ^ 23
  if ex = 255 then
    if mant = 0 then .inf (sign = 1) else .nan
  else
    let mag : ℚ :=
      if ex = 0 then mkRat mant (2 ^ 149)
      else mkRat ((2 ^ 23 + mant) * 2 ^ ex) (2 ^ 150)
    .finite (if sign = 1 then -mag else mag)

/-- The comparison `SPEversion >= 3` performed by the `assert` in
`readData`; NaN compares false, as in numpy. -/
def f32ge3 : F32 → Bool
  | .finite q => decide (3 ≤ q)
  | .inf neg => !neg
  | .nan => false

/-! ## The binary reader `_readAtNumpy` -/

/-- numpy's result of a read: either a single scalar or an array.  The spec's
`readTyped` contract distinguishes the two; `pl.fromfile` only ever produces
arrays. -/
inductive ReadResult where
  | scalar (v : Nat)
  | seq (l : List Nat)
  deriving DecidableEq, Repr

/-- Whether a read result is a single scalar rather than a sequence. -/
def ReadResult.isScalar : ReadResult → Bool
  | .scalar _ => true
  | .seq _ => false

/-- Embedding of `SPE3map._readAtNumpy(pos, size, ntype)`: seek to `pos`,
then `pl.fromfile(self._fid, ntype, int(size))`.  The result is *always* a
numpy array (possibly of length 1 or 0), never a bare scalar — the callers
extract scalars by indexing `[0]`. -/
def readAtNumpy (file : List Nat) (pos : Nat) (size : Int) (ntype : NType) : ReadResult :=
  .seq (fromfileI file pos ntype size)

/-- Modelled from the spec (§4.1 Binary Reader): `readTyped(stream,
bytePosition, count, elementType)` "returns a single scalar when `count == 1`,
else an ordered sequence".  This is the spec's contract, written out to be
compared with the source's `readAtNumpy`. -/
def readTypedSpec (file : List Nat) (pos : Nat) (count : Int) (ntype : NType) : ReadResult :=
  if count = 1 then
    .scalar (leVal ((file.drop pos).take ntype.nbytes))
  else
    .seq (fromfileI file pos ntype count)

/-! ## XML metadata document (modelled from the spec)

`SPE3read.py` parses the XML footer with the external `xmltodict` package and
serializes it back with `xmltodict.unparse`; that package is not part of this
repository.  Modelled from the spec (§4.2 Metadata Document Parser): a
hierarchical structure preserving element names, attribute name→value
mappings, ordered child elements and leaf text content, together with a
`parse` from the raw characters and an inverse `serialize`.  The grammar is a
simplified XML fragment (elements with double-quoted attributes, text, an
optional leading `<?xml ...?>` prolog; no comments, entities or self-closing
tags). -/

/-- An XML node: an element (tag, attributes in order, children in order) or
a text segment. -/
inductive XNode where
  | elem (tag : List Char) (attrs : List (List Char × List Char)) (children : List XNode)
  | text (s : List Char)
  deriving Repr

/-- Characters allowed in element and attribute names. -/
def nameChar (c : Char) : Bool :=
  c.isAlphanum || c = '_' || c = ':' || c = '-' || c = '.'

/-- XML whitespace. -/
def isXmlWs (c : Char) : Bool :=
  c = ' ' || c = '\n' || c = '\t' || c = '\r'

/-- Serialize an attribute list: one space before each `name="value"`. -/
def serializeAttrs : List (List Char × List Char) → List Char
  | [] => []
  | (n, v) :: rest => ' ' :: (n ++ '=' :: '\"' :: (v ++ '\"' :: serializeAttrs rest))

mutual

/-- Serialize one node (elements always use an explicit closing tag, as
`xmltodict.unparse` does with its default `short_empty_elements=False`). -/
def serializeNode : XNode → List Char
  | .elem t as cs =>
      '<' :: (t ++ serializeAttrs as ++ '>' :: (serializeNodes cs ++ '<' :: '/' :: (t ++ ['>'])))
  | .text s => s

/-- Serialize a list of sibling nodes in order. -/
def serializeNodes : List XNode → List Char
  | [] => []
  | n :: ns => serializeNode n ++ serializeNodes ns

end

/-- Parse the attribute list of an opening tag.  Each attribute is preceded
by exactly one space; the list ends at the first character that is not a
space (the caller then requires `>`). -/
def parseAttrs : Nat → List Char → Option (List (List Char × List Char) × List Char)
  | 0, _ => none
  | fuel + 1, cs =>
    match cs with
    | ' ' :: rest =>
      let n := rest.takeWhile nameChar
      if n = [] then none
      else
        match rest.dropWhile nameChar with
        | '=' :: '\"' :: rest2 =>
          let v := rest2.takeWhile (fun d => d ≠ '\"')
          match rest2.dropWhile (fun d => d ≠ '\"') with
          | '\"' :: rest3 =>
            match parseAttrs fuel rest3 with
            | some (attrs, rest4) => some ((n, v) :: attrs, rest4)
            | none => none
          | _ => none
        | _ => none
    | _ => some ([], cs)

mutual

/-- Parse sibling nodes until end of input or a closing tag `</`. -/
def parseNodes : Nat → List Char → Option (List XNode × List Char)
  | 0, _ => none
  | _ + 1, [] => some ([], [])
  | fuel + 1, c :: cs =>
    if c = '<' then
      match cs with
      | '/' :: _ => some ([], c :: cs)
      | _ =>
        match parseElem fuel (c :: cs) with
        | some (e, rest) =>
          match parseNodes fuel rest with
          | some (ns, rest2) => some (e :: ns, rest2)
          | none => none
        | none => none
    else
      let t := (c :: cs).takeWhile (fun d => d ≠ '<')
      match parseNodes fuel ((c :: cs).dropWhile (fun d => d ≠ '<')) with
      | some (ns, rest) => some (.text t :: ns, rest)
      | none => none

/-- Parse one element `<name attrs>children</name>`. -/
def parseElem : Nat → List Char → Option (XNode × List Char)
  | 0, _ => none
  | fuel + 1, cs =>
    match cs with
    | '<' :: rest =>
      let n := rest.takeWhile nameChar
      if n = [] then none
      else
        match parseAttrs fuel (rest.dropWhile nameChar) with
        | some (attrs, rest2) =>
          match rest2 with
          | '>' :: rest3 =>
            match parseNodes fuel rest3 with
            | some (children, rest4) =>
              match rest4 with
              | '<' :: '/' :: rest5 =>
                if rest5.takeWhile nameChar = n then
                  match rest5.dropWhile nameChar with
                  | '>' :: rest6 => some (.elem n attrs children, rest6)
                  | _ => none
                else none
              | _ => none
            | none => none
          | _ => none
        | none => none
    | _ => none

end

/-- Skip everything up to and including the `?>` that closes a prolog. -/
def dropToPrologEnd : List Char → Option (List Char)
  | [] => none
  | '?' :: '>' :: rest => some rest
  | _ :: rest => dropToPrologEnd rest

/-- Skip leading whitespace and an optional `<?xml ...?>` declaration. -/
def skipProlog (cs : List Char) : Option (List Char) :=
  match cs.dropWhile isXmlWs with
  | '<' :: '?' :: rest => dropToPrologEnd rest
  | other => some other

/-- Parse a whole metadata document: optional prolog, a single root element,
optional trailing whitespace. -/
def xmlParse (cs : List Char) : Option XNode :=
  match skipProlog cs with
  | none => none
  | some body =>
    match parseElem (body.length + 1) (body.dropWhile isXmlWs) with
    | some (root, rest) => if rest.dropWhile isXmlWs = [] then some root else none
    | none => none

/-- The document prolog emitted by `xmltodict.unparse` (default
`full_document=True`). -/
def xmlProlog : List Char := "<?xml version=\"1.0\" encoding=\"utf-8\"?>\n".toList

/-- Serialize a whole metadata document. -/
def xmlSerialize (root : XNode) : List Char := xmlProlog ++ serializeNode root

/-! ### Navigation (the dictionary lookups done on the `xmltodict` result) -/

/-- Does this node carry the given element tag? -/
def XNode.tagIs : XNode → List Char → Bool
  | .elem t _ _, s => t = s
  | .text _, _ => false

/-- First child element with the given tag (`doc['Tag']`). -/
def XNode.findChild : XNode → List Char → Option XNode
  | .elem _ _ cs, s => cs.find? (fun n => n.tagIs s)
  | .text _, _ => none

/-- Attribute lookup (`doc['@name']`). -/
def XNode.getAttr : XNode → List Char → Option (List Char)
  | .elem _ as _, s => (as.find? (fun p => p.1 = s)).map Prod.snd
  | .text _, _ => none

/-- Text content (`doc['#text']`): the concatenation of the text children,
absent when there is none. -/
def XNode.textContent : XNode → Option (List Char)
  | .elem _ _ cs =>
    let ts := cs.filterMap (fun n => match n with | .text s => some s | _ => none)
    if ts = [] then none else some ts.flatten
  | .text _ => none

/-! ## Python-style string-to-number parsing -/

/-- Value of a digit string (callers ensure all characters are digits). -/
def digitsNat (cs : List Char) : Nat :=
  cs.foldl (fun a c => a * 10 + (c.toNat - 48)) 0

/-- A nonempty all-digit string, or failure. -/
def digitsVal : List Char → Option Nat
  | [] => none
  | cs => if cs.all Char.isDigit then some (digitsNat cs) else none

/-- Python `int(s)` on the attribute strings: optional sign, then digits
(whitespace stripping and underscore separators are not modelled). -/
def pyInt : List Char → Option Int
  | '-' :: rest => (digitsVal rest).map (fun n => -(n : Int))
  | '+' :: rest => (digitsVal rest).map (fun n => (n : Int))
  | cs => (digitsVal cs).map (fun n => (n : Int))

/-- Magnitude of a Python float literal `digits[.digits]` (exponent
notation, `inf` and `nan` are not modelled); the value is kept exact in `ℚ`
rather than rounded to binary64. -/
def pyFloatMag (cs : List Char) : Option ℚ :=
  let ip := cs.takeWhile Char.isDigit
  match cs.dropWhile Char.isDigit with
  | [] => if ip.isEmpty then none else some (mkRat (digitsNat ip) 1)
  | '.' :: frac =>
    if (!ip.isEmpty || !frac.isEmpty) && frac.all Char.isDigit then
      some (mkRat ((digitsNat ip * 10 ^ frac.length + digitsNat frac : Nat) : Int) (10 ^ frac.length))
    else none
  | _ => none

/-- Python `float(s)`: optional sign then a magnitude. -/
def pyFloat : List Char → Option ℚ
  | '-' :: rest => (pyFloatMag rest).map Neg.neg
  | '+' :: rest => pyFloatMag rest
  | cs => pyFloatMag cs

/-- Python `str.split(',')`: never returns an empty list; empty input gives
`[""]`, adjacent commas give empty pieces. -/
def splitComma : List Char → List (List Char)
  | [] => [[]]
  | c :: rest =>
    match splitComma rest with
    | [] => [[c]]
    | r :: rs => if c = ',' then [] :: r :: rs else (c :: r) :: rs

/-! ## The decode pipeline of `SPE3map.readData` -/

/-- The failures the decode can raise, named after the spec's error taxonomy
(§7); the comments give the concrete Python exception each one stands for. -/
inductive SPEError where
  /-- `AssertionError` from `assert(self.SPEversion >= 3)` (spec:
  `UnsupportedVersionError`). -/
  | unsupportedVersion (v : F32)
  /-- `IndexError` from `[0]` on an empty read result. -/
  | indexError
  /-- `ExpatError` from `xmltodict.parse` (spec: `MalformedMetadataError`). -/
  | malformedMetadata
  /-- `KeyError` on a dictionary path (spec: `MissingFieldError`). -/
  | missingField (path : List Char)
  /-- `AssertionError` on a `type` attribute check (spec:
  `UnexpectedStructureError`). -/
  | unexpectedStructure (what : List Char)
  /-- `KeyError` on the pixel-format lookup table (spec:
  `UnsupportedPixelFormatError`). -/
  | unsupportedPixelFormat (s : List Char)
  /-- `ValueError` from `int(...)` or `float(...)`. -/
  | valueError
  /-- `ValueError` from a numpy reshape with the wrong element count (spec:
  `ReshapeError`). -/
  | reshapeError
  /-- `OSError` from seeking to a negative position. -/
  | osError
  deriving DecidableEq, Repr

/-- `SPEVERSIONOFFSET = 1992`. -/
def SPEVERSIONOFFSET : Nat := 1992

/-- `XMLFOOTEROFFSETPOS = 678`. -/
def XMLFOOTEROFFSETPOS : Nat := 678

/-- `DATAOFFSET = 4100`. -/
def DATAOFFSET : Int := 4100

/-- `_readSPEversion` followed by the `assert(self.SPEversion >= 3)` at the
top of `readData`. -/
def stepVersion (file : List Nat) : Except SPEError F32 :=
  match fromfile file SPEVERSIONOFFSET .float32 1 with
  | [] => .error .indexError
  | bits :: _ =>
    let v := decodeF32 bits
    if f32ge3 v then .ok v else .error (.unsupportedVersion v)

/-- Bytes read from the file, decoded as characters for the XML parser. -/
def bytesToChars (bs : List Nat) : List Char := bs.map Char.ofNat

/-- `_readXMLfooter`: read the footer offset (uint64 at 678), seek there,
read to end of file, parse as XML. -/
def stepFooter (file : List Nat) : Except SPEError XNode :=
  match fromfile file XMLFOOTEROFFSETPOS .uint64 1 with
  | [] => .error .indexError
  | posBits :: _ =>
    match xmlParse (bytesToChars (file.drop posBits)) with
    | some root => .ok root
    | none => .error .malformedMetadata

/-- `self._footerInfo['SpeFormat']`: the top-level dictionary produced by
`xmltodict` has the root tag as its single key. -/
def specTop (root : XNode) : Except SPEError XNode :=
  if root.tagIs "SpeFormat".toList then .ok root
  else .error (.missingField "SpeFormat".toList)

/-- Child lookup that raises `KeyError` (`MissingFieldError`) when absent. -/
def findChildE (n : XNode) (tag : List Char) : Except SPEError XNode :=
  match n.findChild tag with
  | some c => .ok c
  | none => .error (.missingField tag)

/-- Attribute lookup that raises `KeyError` when absent. -/
def getAttrE (n : XNode) (a : List Char) : Except SPEError (List Char) :=
  match n.getAttr a with
  | some v => .ok v
  | none => .error (.missingField a)

/-- `['#text']` lookup that raises `KeyError` when there is no text. -/
def getTextE (n : XNode) : Except SPEError (List Char) :=
  match n.textContent with
  | some t => .ok t
  | none => .error (.missingField "#text".toList)

/-- `int(...)` raising `ValueError` on failure. -/
def pyIntE (s : List Char) : Except SPEError Int :=
  match pyInt s with
  | some n => .ok n
  | none => .error .valueError

/-- `_readWavelengths`: follow
`SpeFormat → Calibrations → WavelengthMapping → Wavelength → #text`, split
on commas, convert every piece with `float(...)`. -/
def stepWavelengths (root : XNode) : Except SPEError (List ℚ) := do
  let sf ← specTop root
  let cal ← findChildE sf "Calibrations".toList
  let wm ← findChildE cal "WavelengthMapping".toList
  let wl ← findChildE wm "Wavelength".toList
  let txt ← getTextE wl
  match (splitComma txt).mapM pyFloat with
  | some qs => .ok qs
  | none => .error .valueError

/-- The frame-layout scalars extracted by `_readFramesInfo`. -/
structure FramesInfo where
  count : Int
  dataType : NType
  frameSize : Int
  frameStride : Int
  deriving DecidableEq, Repr

/-- The closed pixel-format lookup table `possibleDataTypes` of
`_readFramesInfo`. -/
def possibleDataTypes (s : List Char) : Option NType :=
  if s = "MonochromeUnsigned16".toList then some .uint16
  else if s = "MonochromeUnsigned32".toList then some .uint32
  else if s = "MonochromeFloat32".toList then some .float32
  else if s = "MonochromeFloating32".toList then some .float32
  else none

/-- `_readFramesInfo`: check `@type == 'Frame'`, read `@count`, look
`@pixelFormat` up in the closed table, read `@size` and `@stride` — in the
source's statement order. -/
def stepFramesInfo (root : XNode) : Except SPEError FramesInfo := do
  let sf ← specTop root
  let df ← findChildE sf "DataFormat".toList
  let db ← findChildE df "DataBlock".toList
  let ty ← getAttrE db "type".toList
  if ty = "Frame".toList then do
    let c ← pyIntE (← getAttrE db "count".toList)
    let pf ← getAttrE db "pixelFormat".toList
    match possibleDataTypes pf with
    | some dt => do
      let sz ← pyIntE (← getAttrE db "size".toList)
      let st ← pyIntE (← getAttrE db "stride".toList)
      .ok ⟨c, dt, sz, st⟩
    | none => .error (.unsupportedPixelFormat pf)
  else .error (.unexpectedStructure "Frame".toList)

/-- `_readRegionSize`: the region block is the `DataBlock` nested inside the
frame block; check `@type == 'Region'`, read `@height` and `@width`. -/
def stepRegionSize (root : XNode) : Except SPEError (Int × Int) := do
  let sf ← specTop root
  let df ← findChildE sf "DataFormat".toList
  let db ← findChildE df "DataBlock".toList
  let db2 ← findChildE db "DataBlock".toList
  let ty ← getAttrE db2 "type".toList
  if ty = "Region".toList then do
    let h ← pyIntE (← getAttrE db2 "height".toList)
    let w ← pyIntE (← getAttrE db2 "width".toList)
    .ok (h, w)
  else .error (.unexpectedStructure "Region".toList)

/-- `_readExposureTime`: the deep path down to `ExposureTime → #text`,
converted with `float(...)`. -/
def stepExposure (root : XNode) : Except SPEError ℚ := do
  let sf ← specTop root
  let dh ← findChildE sf "DataHistories".toList
  let d1 ← findChildE dh "DataHistory".toList
  let o ← findChildE d1 "Origin".toList
  let ex ← findChildE o "Experiment".toList
  let dv ← findChildE ex "Devices".toList
  let cms ← findChildE dv "Cameras".toList
  let cam ← findChildE cms "Camera".toList
  let sh ← findChildE cam "ShutterTiming".toList
  let et ← findChildE sh "ExposureTime".toList
  let txt ← getTextE et
  match pyFloat txt with
  | some q => .ok q
  | none => .error .valueError

/-- `self.frameSize / self.dataType().nbytes` passed through `int(...)`
inside `_readAtNumpy`: Python true division then truncation toward zero. -/
def elemsCount (frameSize : Int) (t : NType) : Int := intTruncDiv frameSize t.nbytes

/-- One iteration of the `_readArray` loop: read
`frameSize / nbytes` elements of the frame's type at
`DATAOFFSET + frameNb * frameStride` (a negative seek position would raise
`OSError`). -/
def readFrame (file : List Nat) (dt : NType) (frameSize frameStride : Int) (i : Nat) :
    Except SPEError (List Nat) :=
  let pos : Int := DATAOFFSET + i * frameStride
  if pos < 0 then .error .osError
  else .ok (fromfileI file pos.toNat dt (elemsCount frameSize dt))

/-- Worker for `chunkRows`; the first list-typed argument counts fuel so the
recursion is structural. -/
def chunkRowsAux (w : Nat) : Nat → List Nat → List (List Nat)
  | _, [] => []
  | 0, _ :: _ => []
  | fuel + 1, x :: xs => ((x :: xs).take w) :: chunkRowsAux w fuel ((x :: xs).drop w)

/-- Split a flat list into rows of `w` (row-major), as numpy
`reshape((h, w))` lays the data out; the fuel argument only forces
termination and `l.length` is always enough. -/
def chunkRows (w : Nat) (l : List Nat) : List (List Nat) := chunkRowsAux w l.length l

/-- numpy `frameData.reshape(regionSize)`: requires the element count to be
exactly `height * width`, else raises (negative/inferred dimensions are not
modelled). -/
def reshape2 (l : List Nat) (hw : Int × Int) : Except SPEError (List (List Nat)) :=
  if 0 ≤ hw.1 ∧ 0 ≤ hw.2 ∧ l.length = hw.1.toNat * hw.2.toNat then
    .ok (chunkRows hw.2.toNat l)
  else .error .reshapeError

/-- The frames produced by the first `n` iterations of the `_readArray`
loop, in file order; the earliest failing iteration's error propagates. -/
def readFramesUpTo (file : List Nat) (dt : NType) (frameSize frameStride : Int)
    (hw : Int × Int) : Nat → Except SPEError (List (List (List Nat)))
  | 0 => .ok []
  | n + 1 =>
    match readFramesUpTo file dt frameSize frameStride hw n with
    | .error e => .error e
    | .ok prev =>
      match readFrame file dt frameSize frameStride n with
      | .error e => .error e
      | .ok raw =>
        match reshape2 raw hw with
        | .error e => .error e
        | .ok fr => .ok (prev ++ [fr])

/-- `_readArray`: the whole loop, `range(self.nbOfFrames)` iterations
(Python `range` of a negative count is empty, hence `toNat`). -/
def stepArray (file : List Nat) (fi : FramesInfo) (hw : Int × Int) :
    Except SPEError (List (List (List Nat))) :=
  readFramesUpTo file fi.dataType fi.frameSize fi.frameStride hw fi.count.toNat

/-- Everything `readData` stores on the object when it completes. -/
structure DecodedState where
  SPEversion : F32
  footerInfo : XNode
  wavelength : List ℚ
  nbOfFrames : Int
  dataType : NType
  frameSize : Int
  frameStride : Int
  regionSize : Int × Int
  exposureTime : ℚ
  data : List (List (List Nat))
  deriving Repr

/-- The seven stages `readData` runs, in source order. -/
inductive Step where
  | version
  | footer
  | wavelengths
  | framesInfo
  | regionSize
  | exposure
  | array
  deriving DecidableEq, Repr

/-- The full stage order of `readData`. -/
def allSteps : List Step :=
  [.version, .footer, .wavelengths, .framesInfo, .regionSize, .exposure, .array]

/-- `SPE3map.readData`, instrumented with the list of stages that started
running: each stage runs only if every earlier one succeeded, and the first
failure propagates immediately (there is no handler between the stages — the
bare `raise` in the version `except` block re-raises). -/
def readDataTraced (file : List Nat) : List Step × Except SPEError DecodedState :=
  match stepVersion file with
  | .error e => ([.version], .error e)
  | .ok v =>
    match stepFooter file with
    | .error e => ([.version, .footer], .error e)
    | .ok root =>
      match stepWavelengths root with
      | .error e => ([.version, .footer, .wavelengths], .error e)
      | .ok wl =>
        match stepFramesInfo root with
        | .error e => ([.version, .footer, .wavelengths, .framesInfo], .error e)
        | .ok fi =>
          match stepRegionSize root with
          | .error e =>
            ([.version, .footer, .wavelengths, .framesInfo, .regionSize], .error e)
          | .ok hw =>
            match stepExposure root with
            | .error e =>
              ([.version, .footer, .wavelengths, .framesInfo, .regionSize, .exposure],
                .error e)
            | .ok et =>
              match stepArray file fi hw with
              | .error e => (allSteps, .error e)
              | .ok frames =>
                (allSteps,
                  .ok ⟨v, root, wl, fi.count, fi.dataType, fi.frameSize, fi.frameStride,
                    hw, et, frames⟩)

/-- `SPE3map.readData`: the caller-visible result. -/
def readData (file : List Nat) : Except SPEError DecodedState := (readDataTraced file).2

/-! ## `SPE3map.__init__` (stream ownership) -/

/-- What a run of the constructor leaves behind. -/
structure InitOutcome where
  /-- The decoder itself opened the stream (`openFile` ran). -/
  openedByDecoder : Bool
  /-- A stream was attached (`self._fid` truthy — a Python file object is
  always truthy). -/
  hasStream : Bool
  /-- `self._fid.close()` ran. -/
  closed : Bool
  /-- The outcome of `readData`, or `none` when it never ran. -/
  result : Option (Except SPEError DecodedState)
  deriving Repr

/-- `SPE3map.__init__(fname, fid)` over a file whose bytes are `file`:
if a filename is given the decoder opens the stream itself, otherwise a
caller-supplied open stream is attached; if a stream is attached, `readData`
runs and then `self._fid.close()` — but the `close()` line is *not* in a
`try/finally`, so when `readData` raises, the exception propagates out of
`__init__` and the stream is left open. -/
def SPE3init (fname fid : Bool) (file : List Nat) : InitOutcome :=
  if fname then
    match readData file with
    | .ok st => ⟨true, true, true, some (.ok st)⟩
    | .error e => ⟨true, true, false, some (.error e)⟩
  else if fid then
    match readData file with
    | .ok st => ⟨false, true, true, some (.ok st)⟩
    | .error e => ⟨false, true, false, some (.error e)⟩
  else ⟨false, false, false, none⟩

/-! ## General lemmas about the binary reader -/

deriving instance DecidableEq for Except

/-- Every modelled element type is at least one byte wide. -/
theorem NType.nbytes_pos (t : NType) : 0 < t.nbytes := by cases t <;> decide

/-- Computation rule for `fromfile` when the file splits as
`pre ++ (mid ++ post)` with the read starting right after `pre` and entirely
contained in `mid`. -/
theorem fromfile_of_split (pre mid post : List Nat) (pos : Nat) (t : NType) (count : Nat)
    (hpre : pre.length = pos) (hmid : count * t.nbytes ≤ mid.length) :
    fromfile (pre ++ (mid ++ post)) pos t count =
      (List.range count).map (fun i => leVal ((mid.drop (i * t.nbytes)).take t.nbytes)) := by
  have hnb := t.nbytes_pos
  have hmin : min count (((pre ++ (mid ++ post)).length - pos) / t.nbytes) = count := by
    have h1 : (pre ++ (mid ++ post)).length - pos = mid.length + post.length := by
      simp [hpre]
    rw [h1]
    exact Nat.min_eq_left ((Nat.le_div_iff_mul_le hnb).mpr
      (le_trans hmid (Nat.le_add_right _ _)))
  rw [fromfile, hmin]
  apply List.map_congr_left
  intro i hi
  have hi2 : i + 1 ≤ count := List.mem_range.mp hi
  have hle : i * t.nbytes + t.nbytes ≤ mid.length := by
    calc i * t.nbytes + t.nbytes = (i + 1) * t.nbytes := by ring
    _ ≤ count * t.nbytes := Nat.mul_le_mul_right _ hi2
    _ ≤ mid.length := hmid
  have h2 : pos + i * t.nbytes = pre.length + i * t.nbytes := by rw [hpre]
  rw [h2, List.drop_append, List.drop_append_of_le_length (by omega),
    List.take_append_of_le_length (by simp [List.length_drop]; omega)]

/-- Length of a `fromfile` read: `count` elements when enough bytes remain,
else only the complete elements that fit. -/
theorem fromfile_length (file : List Nat) (pos : Nat) (t : NType) (count : Nat) :
    (fromfile file pos t count).length = min count ((file.length - pos) / t.nbytes) := by
  rw [fromfile, List.length_map, List.length_range]

/-- `fromfileI` on a nonnegative (cast) count is a plain `fromfile`. -/
theorem fromfileI_natCast (file : List Nat) (pos : Nat) (t : NType) (n : Nat) :
    fromfileI file pos t (n : Int) = fromfile file pos t n := by
  unfold fromfileI
  rw [if_neg (by omega), Int.toNat_natCast]

/-! ## A concrete valid SPE3 file

`goodFile` is a synthetic, fully valid file: version 3.0 at offset 1992, the
footer offset 4108 at offset 678, two 1×2 `MonochromeUnsigned16` frames of 4
bytes each (stride 4) at offset 4100, and the XML footer at 4108.  It powers
the witnesses of the pipeline claims. -/

set_option maxRecDepth 8000

/-- The XML footer text of the synthetic file. -/
def goodXML : String :=
  "<?xml version=\"1.0\" encoding=\"utf-8\"?>\n<SpeFormat version=\"3.0\"><Calibrations><WavelengthMapping><Wavelength type=\"list\">1.0,2.5</Wavelength></WavelengthMapping></Calibrations><DataFormat><DataBlock type=\"Frame\" count=\"2\" pixelFormat=\"MonochromeUnsigned16\" size=\"4\" stride=\"4\"><DataBlock type=\"Region\" height=\"1\" width=\"2\"></DataBlock></DataBlock></DataFormat><DataHistories><DataHistory><Origin><Experiment><Devices><Cameras><Camera><ShutterTiming><ExposureTime type=\"f\">0.5</ExposureTime></ShutterTiming></Camera></Cameras></Devices></Experiment></Origin></DataHistory></DataHistories></SpeFormat>"

/-- The footer as bytes. -/
def goodFooterBytes : List Nat := goodXML.toList.map Char.toNat

/-- The 8 payload bytes: frames `[[1, 2]]` and `[[3, 4]]` as uint16 LE. -/
def goodPayload : List Nat := [1, 0, 2, 0, 3, 0, 4, 0]

/-- The whole synthetic file. -/
def goodFile : List Nat :=
  List.replicate 678 0 ++ ([12, 16, 0, 0, 0, 0, 0, 0] ++ (List.replicate 1306 0 ++
    ([0, 0, 64, 64] ++ (List.replicate 2104 0 ++ (goodPayload ++ goodFooterBytes)))))

/-- Reading the footer-offset field of `goodFile` gives 4108. -/
theorem goodFile_read678 : fromfile goodFile XMLFOOTEROFFSETPOS .uint64 1 = [4108] := by
  rw [XMLFOOTEROFFSETPOS, goodFile,
    fromfile_of_split _ _ _ _ _ _ (by simp) (by decide)]
  decide

/-- Reading the version field of `goodFile` gives the bits of `3.0f`. -/
theorem goodFile_read1992 : fromfile goodFile SPEVERSIONOFFSET .float32 1 = [1077936128] := by
  have h : goodFile = (List.replicate 678 0 ++ ([12, 16, 0, 0, 0, 0, 0, 0] ++
      List.replicate 1306 0)) ++ ([0, 0, 64, 64] ++
        (List.replicate 2104 0 ++ (goodPayload ++ goodFooterBytes))) := by
    simp only [goodFile, List.append_assoc]
  rw [SPEVERSIONOFFSET, h, fromfile_of_split _ _ _ _ _ _ (by simp) (by decide)]
  decide

/-- The bytes from position 4108 on are exactly the footer. -/
theorem goodFile_drop4108 : goodFile.drop 4108 = goodFooterBytes := by
  have h : goodFile = (List.replicate 678 0 ++ ([12, 16, 0, 0, 0, 0, 0, 0] ++
      (List.replicate 1306 0 ++ ([0, 0, 64, 64] ++
        (List.replicate 2104 0 ++ goodPayload))))) ++ goodFooterBytes := by
    simp only [goodFile, List.append_assoc]
  rw [h, List.drop_left' (by
    simp only [List.length_append, List.length_replicate, goodPayload,
      List.length_cons, List.length_nil])]

/-- Frame 0 of `goodFile`: two uint16 elements at 4100. -/
theorem goodFile_read4100 : fromfile goodFile 4100 .uint16 2 = [1, 2] := by
  have h : goodFile = (List.replicate 678 0 ++ ([12, 16, 0, 0, 0, 0, 0, 0] ++
      (List.replicate 1306 0 ++ ([0, 0, 64, 64] ++ List.replicate 2104 0)))) ++
        (goodPayload ++ goodFooterBytes) := by
    simp only [goodFile, List.append_assoc]
  rw [h, fromfile_of_split _ _ _ _ _ _ (by simp only [List.length_append,
    List.length_replicate, List.length_cons, List.length_nil]) (by decide)]
  decide

/-- Frame 1 of `goodFile`: two uint16 elements at 4104. -/
theorem goodFile_read4104 : fromfile goodFile 4104 .uint16 2 = [3, 4] := by
  have h : goodFile = ((List.replicate 678 0 ++ ([12, 16, 0, 0, 0, 0, 0, 0] ++
      (List.replicate 1306 0 ++ ([0, 0, 64, 64] ++ List.replicate 2104 0)))) ++
        [1, 0, 2, 0]) ++ ([3, 0, 4, 0] ++ goodFooterBytes) := by
    simp only [goodFile, goodPayload, List.append_assoc, List.cons_append,
      List.nil_append]
  rw [h, fromfile_of_split _ _ _ _ _ _ (by simp only [List.length_append,
    List.length_replicate, List.length_cons, List.length_nil]) (by decide)]
  decide

/-- The parsed footer of `goodFile`. -/
def goodRoot : XNode :=
  match xmlParse goodXML.toList with
  | some r => r
  | none => .text []

/-- Decoding the footer bytes back to characters is the identity here. -/
theorem bytesToChars_good : bytesToChars goodFooterBytes = goodXML.toList := by
  simp only [bytesToChars, goodFooterBytes, List.map_map]
  have h : (Char.ofNat ∘ Char.toNat) = fun c : Char => c := by
    funext c
    simp [Function.comp, Char.ofNat_toNat]
  rw [h]
  exact List.map_id _

/-- The footer of `goodFile` parses. -/
theorem xmlParse_good : xmlParse goodXML.toList = some goodRoot := rfl

/-- The version stage of `goodFile` succeeds with 3.0. -/
theorem stepVersion_good : stepVersion goodFile = .ok (.finite 3) := by
  unfold stepVersion
  rw [goodFile_read1992]
  decide

/-- Computation rule for `stepFooter` given the two file reads. -/
theorem stepFooter_eq_of_read (file : List Nat) (p : Nat)
    (h : fromfile file XMLFOOTEROFFSETPOS .uint64 1 = [p]) (cs : List Char)
    (h2 : bytesToChars (file.drop p) = cs) :
    stepFooter file = match xmlParse cs with
      | some root => .ok root
      | none => .error .malformedMetadata := by
  unfold stepFooter
  rw [h]
  show (match xmlParse (bytesToChars (file.drop p)) with
    | some root => Except.ok root
    | none => Except.error SPEError.malformedMetadata) = _
  rw [h2]

/-- The footer stage of `goodFile` succeeds. -/
theorem stepFooter_good : stepFooter goodFile = .ok goodRoot := by
  rw [stepFooter_eq_of_read goodFile 4108 goodFile_read678 goodXML.toList
    (by rw [goodFile_drop4108, bytesToChars_good]), xmlParse_good]

/-- The wavelength stage of `goodFile` succeeds. -/
theorem stepWavelengths_good : stepWavelengths goodRoot = .ok [1, mkRat 5 2] := by decide

/-- The frame-layout stage of `goodFile` succeeds. -/
theorem stepFramesInfo_good : stepFramesInfo goodRoot = .ok ⟨2, .uint16, 4, 4⟩ := by decide

/-- The region stage of `goodFile` succeeds. -/
theorem stepRegionSize_good : stepRegionSize goodRoot = .ok (1, 2) := by decide

/-- The exposure stage of `goodFile` succeeds. -/
theorem stepExposure_good : stepExposure goodRoot = .ok (mkRat 1 2) := by decide

/-- Computation rule for `readFrame` at a nonnegative position. -/
theorem readFrame_eq (file : List Nat) (dt : NType) (fs stride : Int) (i : Nat) (p : Nat)
    (hp : DATAOFFSET + (i : Int) * stride = (p : Int)) :
    readFrame file dt fs stride i = .ok (fromfileI file p dt (elemsCount fs dt)) := by
  unfold readFrame
  rw [hp, if_neg (by omega), Int.toNat_natCast]

/-- Frame 0 of `goodFile` decodes to `[1, 2]`. -/
theorem goodFrame0 : readFrame goodFile .uint16 4 4 0 = .ok [1, 2] := by
  rw [readFrame_eq goodFile .uint16 4 4 0 4100 (by decide),
    show elemsCount 4 .uint16 = ((2 : Nat) : Int) from by decide,
    fromfileI_natCast, goodFile_read4100]

/-- Frame 1 of `goodFile` decodes to `[3, 4]`. -/
theorem goodFrame1 : readFrame goodFile .uint16 4 4 1 = .ok [3, 4] := by
  rw [readFrame_eq goodFile .uint16 4 4 1 4104 (by decide),
    show elemsCount 4 .uint16 = ((2 : Nat) : Int) from by decide,
    fromfileI_natCast, goodFile_read4104]

/-- The frame-array stage of `goodFile` succeeds with both frames. -/
theorem stepArray_good :
    stepArray goodFile ⟨2, .uint16, 4, 4⟩ (1, 2) = .ok [[[1, 2]], [[3, 4]]] := by
  show readFramesUpTo goodFile .uint16 4 4 (1, 2) (Int.toNat 2) = _
  rw [show (2 : Int).toNat = 2 from rfl]
  rw [readFramesUpTo, readFramesUpTo, readFramesUpTo, goodFrame0, goodFrame1]
  decide

/-- The decoded state of `goodFile`. -/
def goodState : DecodedState :=
  ⟨.finite 3, goodRoot, [1, mkRat 5 2], 2, .uint16, 4, 4, (1, 2), mkRat 1 2, [[[1, 2]], [[3, 4]]]⟩

/-- `readDataTraced` in terms of the seven stage results when all succeed. -/
theorem readDataTraced_eq_of_steps (file : List Nat) (v : F32) (root : XNode)
    (wl : List ℚ) (fi : FramesInfo) (hw : Int × Int) (et : ℚ)
    (frames : List (List (List Nat)))
    (h1 : stepVersion file = .ok v) (h2 : stepFooter file = .ok root)
    (h3 : stepWavelengths root = .ok wl) (h4 : stepFramesInfo root = .ok fi)
    (h5 : stepRegionSize root = .ok hw) (h6 : stepExposure root = .ok et)
    (h7 : stepArray file fi hw = .ok frames) :
    readDataTraced file = (allSteps,
      .ok ⟨v, root, wl, fi.count, fi.dataType, fi.frameSize, fi.frameStride, hw, et,
        frames⟩) := by
  unfold readDataTraced
  simp only [h1, h2, h3, h4, h5, h6, h7]

/-- Decoding `goodFile` succeeds, running all seven stages. -/
theorem readDataTraced_good : readDataTraced goodFile = (allSteps, .ok goodState) :=
  readDataTraced_eq_of_steps goodFile _ _ _ _ _ _ _ stepVersion_good stepFooter_good
    stepWavelengths_good stepFramesInfo_good stepRegionSize_good stepExposure_good
    stepArray_good

/-- Caller-visible form of the previous theorem. -/
theorem readData_good : readData goodFile = .ok goodState := by
  rw [readData, readDataTraced_good]

/-- C7 counterexample: with `count == 1` the source's binary reader returns a
one-element *array* (its callers index `[0]`), not the single scalar the spec
promises; at the same input the spec's `readTyped` returns a scalar. -/
theorem c7_counterexample :
    readAtNumpy [5, 0] 0 1 .uint16 = .seq [5] ∧
    readTypedSpec [5, 0] 0 1 .uint16 = .scalar 5 ∧
    (readAtNumpy [5, 0] 0 1 .uint16).isScalar = false := by decide

/-- C7 amended: for every count, including `count == 1`, `_readAtNumpy`
returns an ordered sequence (never a scalar) holding
`min count (available / nbytes)` elements; callers extract scalars by
indexing element 0. -/
theorem c7_theorem (file : List Nat) (pos : Nat) (count : Nat) (ntype : NType)
    (_hc : 1 ≤ count) :
    (readAtNumpy file pos (count : Int) ntype).isScalar = false ∧
    readAtNumpy file pos (count : Int) ntype =
      .seq (fromfile file pos ntype count) ∧
    (fromfile file pos ntype count).length =
      min count ((file.length - pos) / ntype.nbytes) := by
  refine ⟨?_, ?_, fromfile_length file pos ntype count⟩
  · rfl
  · rw [readAtNumpy, fromfileI_natCast]

/-- C7 witness: the amended claim at `count = 1` on a concrete two-byte
file. -/
theorem c7_witness :
    (readAtNumpy [5, 0] 0 ((1 : Nat) : Int) .uint16).isScalar = false ∧
    readAtNumpy [5, 0] 0 ((1 : Nat) : Int) .uint16 =
      .seq (fromfile [5, 0] 0 .uint16 1) ∧
    (fromfile [5, 0] 0 .uint16 1).length =
      min 1 ((([5, 0] : List Nat).length - 0) / NType.uint16.nbytes) :=
  c7_theorem [5, 0] 0 1 .uint16 (by decide)

/-- C8 counterexample: a read of one float32 (4 bytes) from a two-byte file
returns the empty array instead of failing: numpy `fromfile` silently
returns the elements that fit. -/
theorem c8_counterexample :
    readAtNumpy [0, 0] 0 1 .float32 = .seq [] := by decide

/-- C8 amended: when more elements are requested than remain, the reader
does not fail; it returns exactly the complete elements that fit,
`(available bytes) / nbytes`. -/
theorem c8_theorem (file : List Nat) (pos : Nat) (ntype : NType) (count : Nat)
    (h : (file.length - pos) / ntype.nbytes < count) :
    readAtNumpy file pos (count : Int) ntype =
      .seq (fromfile file pos ntype count) ∧
    (fromfile file pos ntype count).length = (file.length - pos) / ntype.nbytes := by
  constructor
  · rw [readAtNumpy, fromfileI_natCast]
  · rw [fromfile_length]
    omega

/-- C8 witness: the amended claim on the concrete truncated read. -/
theorem c8_witness :
    readAtNumpy [0, 0] 0 ((1 : Nat) : Int) .float32 =
      .seq (fromfile [0, 0] 0 .float32 1) ∧
    (fromfile [0, 0] 0 .float32 1).length =
      (([0, 0] : List Nat).length - 0) / NType.float32.nbytes :=
  c8_theorem [0, 0] 0 .float32 1 (by decide)

/-- C10: constructing `SPE3map` with neither a filename nor a stream does
nothing: no stream is opened or attached, nothing is closed, and `readData`
never runs, so none of the decoded attributes exist. -/
theorem c10_theorem (file : List Nat) :
    SPE3init false false file = ⟨false, false, false, none⟩ := rfl

/-- Outcome of `__init__` when a stream is attached and `readData`
succeeds: the stream is closed. -/
theorem SPE3init_eq_of_ok (fname fid : Bool) (file : List Nat) (st : DecodedState)
    (hstream : fname || fid) (h : readData file = .ok st) :
    SPE3init fname fid file = ⟨fname, true, true, some (.ok st)⟩ := by
  cases fname
  · cases fid
    · simp at hstream
    · simp only [SPE3init]
      rw [h]
      rfl
  · simp only [SPE3init]
    rw [h]
    rfl

/-- Outcome of `__init__` when a stream is attached and `readData` raises:
the exception propagates before `self._fid.close()`, the stream stays
open. -/
theorem SPE3init_eq_of_error (fname fid : Bool) (file : List Nat) (e : SPEError)
    (hstream : fname || fid) (h : readData file = .error e) :
    SPE3init fname fid file = ⟨fname, true, false, some (.error e)⟩ := by
  cases fname
  · cases fid
    · simp at hstream
    · simp only [SPE3init]
      rw [h]
      rfl
  · simp only [SPE3init]
    rw [h]
    rfl

/-- C4 counterexample: the decoder *does* close a caller-supplied stream —
after a successful decode, `__init__` runs `self._fid.close()` no matter who
opened the stream. -/
theorem c4_counterexample :
    (SPE3init false true goodFile).openedByDecoder = false ∧
    (SPE3init false true goodFile).closed = true := by
  rw [SPE3init_eq_of_ok false true goodFile goodState (by decide) readData_good]
  exact ⟨rfl, rfl⟩

/-- C4 amended: whenever a stream is attached (decoder-opened or
caller-supplied alike), it is closed exactly when `readData` succeeds; on a
failed decode the exception propagates before `close()` and the stream stays
open, again regardless of who opened it. -/
theorem c4_theorem (fname fid : Bool) (file : List Nat)
    (h : fname || fid) :
    (SPE3init fname fid file).hasStream = true ∧
    ((SPE3init fname fid file).closed = true ↔ ∃ st, readData file = .ok st) := by
  cases hr : readData file with
  | error e =>
    rw [SPE3init_eq_of_error fname fid file e h hr]
    exact ⟨rfl, by simp⟩
  | ok st =>
    rw [SPE3init_eq_of_ok fname fid file st h hr]
    exact ⟨rfl, by simp [hr]⟩

/-- C4 witness: the amended claim on a caller-supplied stream over the valid
file: the stream is attached and closed since the decode succeeds. -/
theorem c4_witness :
    (SPE3init false true goodFile).hasStream = true ∧
    ((SPE3init false true goodFile).closed = true ↔
      ∃ st, readData goodFile = .ok st) :=
  c4_theorem false true goodFile (by decide)

/-- A 1996-byte file whose version field holds `2.5f` (bits 1075838976):
everything before offset 1992 is zero. -/
def badVersionFile : List Nat := List.replicate 1992 0 ++ ([0, 0, 32, 64] ++ [])

/-- Reading the version field of `badVersionFile`. -/
theorem badVersionFile_read1992 :
    fromfile badVersionFile SPEVERSIONOFFSET .float32 1 = [1075838976] := by
  rw [SPEVERSIONOFFSET, badVersionFile,
    fromfile_of_split _ _ _ _ _ _ (by simp) (by decide)]
  decide

/-- C2: when the version field decodes below 3.0, `readData` raises the
version error with only the version stage having run — the metadata parse
and every later stage never start. -/
theorem c2_theorem (file : List Nat) (bits : Nat)
    (h : fromfile file SPEVERSIONOFFSET .float32 1 = [bits])
    (hv : f32ge3 (decodeF32 bits) = false) :
    readDataTraced file = ([.version], .error (.unsupportedVersion (decodeF32 bits))) := by
  have hs : stepVersion file = .error (.unsupportedVersion (decodeF32 bits)) := by
    unfold stepVersion
    rw [h]
    simp [hv]
  unfold readDataTraced
  simp only [hs]

/-- C2 witness: decoding the concrete version-2.5 file stops at the version
check. -/
theorem c2_witness :
    readDataTraced badVersionFile =
      ([.version], .error (.unsupportedVersion (decodeF32 1075838976))) :=
  c2_theorem badVersionFile 1075838976 badVersionFile_read1992 (by decide)

/-- C6: the stages of `readData` always form a prefix of the fixed order
version → footer → wavelengths → framesInfo → regionSize → exposure →
array, the version check always runs first, and a successful decode means
every stage ran; a failing stage ends the run at once (the later stages are
missing from the trace), and the `Except` result carries either the full
decoded state or just the first error — no partial result. -/
theorem c6_theorem (file : List Nat) :
    (readDataTraced file).1 <+: allSteps ∧
    (readDataTraced file).1.head? = some .version ∧
    (∀ st, (readDataTraced file).2 = .ok st → (readDataTraced file).1 = allSteps) := by
  unfold readDataTraced
  repeat' split
  all_goals first
    | exact ⟨List.prefix_refl _, rfl, fun st hst => rfl⟩
    | exact ⟨⟨_, rfl⟩, rfl, fun st hst => by simp at hst⟩

/-- Reduction of `Except` bind on a success, for unfolding the navigation
chains. -/
theorem except_bind_ok {ε α β : Type} (a : α) (f : α → Except ε β) :
    (Except.ok a >>= f) = f a := rfl

/-- C9: the element count handed to the reader for every frame is
`int(frameSize / nbytes)` — for a nonnegative `frameSize` exactly the floor
`frameSize / nbytes`, silently discarding any remainder — and the frame read
itself never rejects a size that is not a multiple of the element width: it
returns the truncated count of elements (the only later guard is the
reshape). -/
theorem c9_theorem (file : List Nat) (t : NType) (fs stride : Int) (i : Nat)
    (hfs : 0 ≤ fs) (hpos : 0 ≤ DATAOFFSET + (i : Int) * stride) :
    elemsCount fs t = ((fs.toNat / t.nbytes : Nat) : Int) ∧
    readFrame file t fs stride i =
      .ok (fromfileI file (DATAOFFSET + (i : Int) * stride).toNat t
        ((fs.toNat / t.nbytes : Nat) : Int)) := by
  have h1 : elemsCount fs t = ((fs.toNat / t.nbytes : Nat) : Int) := by
    unfold elemsCount intTruncDiv
    rw [if_pos hfs]
  refine ⟨h1, ?_⟩
  simp only [readFrame]
  rw [if_neg (by omega), h1]

/-- A file that is all zeros up to the data offset, followed by 8 payload
bytes; used with a declared frame size of 9 bytes (not a multiple of the
2-byte element width). -/
def oddFile : List Nat := List.replicate 4100 0 ++ ([9, 0, 8, 0, 7, 0, 6, 0] ++ [])

/-- C9 witness: with `frameSize = 9` and uint16 elements the frame read
proceeds with `9 / 2 = 4` elements instead of rejecting the file. -/
theorem c9_witness :
    elemsCount 9 .uint16 = (((9 : Int).toNat / NType.uint16.nbytes : Nat) : Int) ∧
    readFrame oddFile .uint16 9 8 0 =
      .ok (fromfileI oddFile (DATAOFFSET + ((0 : Nat) : Int) * 8).toNat .uint16
        (((9 : Int).toNat / NType.uint16.nbytes : Nat) : Int)) :=
  c9_theorem oddFile .uint16 9 8 0 (by decide) (by decide)

/-- C3: when the earlier stages succeed, the frame block is of type `Frame`
and its `count` parses, but the `pixelFormat` attribute is not a key of the
closed lookup table, decoding fails with the pixel-format error and the
trace stops at the frame-layout stage — the frame-array stage (the only
reader of payload bytes) never starts. -/
theorem c3_theorem (file : List Nat) (v : F32) (root sf df db : XNode)
    (wl : List ℚ) (cnt pf : List Char) (c : Int)
    (h1 : stepVersion file = .ok v)
    (h2 : stepFooter file = .ok root)
    (h3 : stepWavelengths root = .ok wl)
    (h4 : specTop root = .ok sf)
    (h5 : sf.findChild "DataFormat".toList = some df)
    (h6 : df.findChild "DataBlock".toList = some db)
    (h7 : db.getAttr "type".toList = some "Frame".toList)
    (h8 : db.getAttr "count".toList = some cnt)
    (h9 : pyInt cnt = some c)
    (h10 : db.getAttr "pixelFormat".toList = some pf)
    (h11 : possibleDataTypes pf = none) :
    readDataTraced file =
      ([.version, .footer, .wavelengths, .framesInfo],
        .error (.unsupportedPixelFormat pf)) := by
  have hfi : stepFramesInfo root = .error (.unsupportedPixelFormat pf) := by
    unfold stepFramesInfo
    simp only [h4, except_bind_ok, findChildE, h5, h6, getAttrE, h7, h8,
      pyIntE, h9, h10, h11]
    simp
  unfold readDataTraced
  simp only [h1, h2, h3, hfi]

/-- The footer of the bad-pixel-format file: identical to `goodXML` except
that `pixelFormat` is the unknown literal `Foo`. -/
def badXML : String :=
  "<?xml version=\"1.0\" encoding=\"utf-8\"?>\n<SpeFormat version=\"3.0\"><Calibrations><WavelengthMapping><Wavelength type=\"list\">1.0,2.5</Wavelength></WavelengthMapping></Calibrations><DataFormat><DataBlock type=\"Frame\" count=\"2\" pixelFormat=\"Foo\" size=\"4\" stride=\"4\"><DataBlock type=\"Region\" height=\"1\" width=\"2\"></DataBlock></DataBlock></DataFormat><DataHistories><DataHistory><Origin><Experiment><Devices><Cameras><Camera><ShutterTiming><ExposureTime type=\"f\">0.5</ExposureTime></ShutterTiming></Camera></Cameras></Devices></Experiment></Origin></DataHistory></DataHistories></SpeFormat>"

/-- The bad footer as bytes. -/
def badFooterBytes : List Nat := badXML.toList.map Char.toNat

/-- A file identical to `goodFile` except for the `pixelFormat` attribute in
its footer. -/
def badPixelFile : List Nat :=
  List.replicate 678 0 ++ ([12, 16, 0, 0, 0, 0, 0, 0] ++ (List.replicate 1306 0 ++
    ([0, 0, 64, 64] ++ (List.replicate 2104 0 ++ (goodPayload ++ badFooterBytes)))))

/-- Footer-offset read of `badPixelFile`. -/
theorem badPixelFile_read678 :
    fromfile badPixelFile XMLFOOTEROFFSETPOS .uint64 1 = [4108] := by
  rw [XMLFOOTEROFFSETPOS, badPixelFile,
    fromfile_of_split _ _ _ _ _ _ (by simp) (by decide)]
  decide

/-- Version read of `badPixelFile`. -/
theorem badPixelFile_read1992 :
    fromfile badPixelFile SPEVERSIONOFFSET .float32 1 = [1077936128] := by
  have h : badPixelFile = (List.replicate 678 0 ++ ([12, 16, 0, 0, 0, 0, 0, 0] ++
      List.replicate 1306 0)) ++ ([0, 0, 64, 64] ++
        (List.replicate 2104 0 ++ (goodPayload ++ badFooterBytes))) := by
    simp only [badPixelFile, List.append_assoc]
  rw [SPEVERSIONOFFSET, h, fromfile_of_split _ _ _ _ _ _ (by simp) (by decide)]
  decide

/-- Footer bytes of `badPixelFile`. -/
theorem badPixelFile_drop4108 : badPixelFile.drop 4108 = badFooterBytes := by
  have h : badPixelFile = (List.replicate 678 0 ++ ([12, 16, 0, 0, 0, 0, 0, 0] ++
      (List.replicate 1306 0 ++ ([0, 0, 64, 64] ++
        (List.replicate 2104 0 ++ goodPayload))))) ++ badFooterBytes := by
    simp only [badPixelFile, List.append_assoc]
  rw [h, List.drop_left' (by
    simp only [List.length_append, List.length_replicate, goodPayload,
      List.length_cons, List.length_nil])]

/-- The parsed footer of `badPixelFile`. -/
def badRoot : XNode :=
  match xmlParse badXML.toList with
  | some r => r
  | none => .text []

/-- Byte-to-character decoding of the bad footer. -/
theorem bytesToChars_bad : bytesToChars badFooterBytes = badXML.toList := by
  simp only [bytesToChars, badFooterBytes, List.map_map]
  have h : (Char.ofNat ∘ Char.toNat) = fun c : Char => c := by
    funext c
    simp [Function.comp, Char.ofNat_toNat]
  rw [h]
  exact List.map_id _

/-- The footer of `badPixelFile` parses. -/
theorem xmlParse_bad : xmlParse badXML.toList = some badRoot := rfl

/-- The version stage of `badPixelFile` succeeds with 3.0. -/
theorem stepVersion_bad : stepVersion badPixelFile = .ok (.finite 3) := by
  unfold stepVersion
  rw [badPixelFile_read1992]
  decide

/-- The footer stage of `badPixelFile` succeeds. -/
theorem stepFooter_bad : stepFooter badPixelFile = .ok badRoot := by
  rw [stepFooter_eq_of_read badPixelFile 4108 badPixelFile_read678 badXML.toList
    (by rw [badPixelFile_drop4108, bytesToChars_bad]), xmlParse_bad]

/-- The wavelength stage of `badPixelFile` succeeds. -/
theorem stepWavelengths_bad : stepWavelengths badRoot = .ok [1, mkRat 5 2] := by decide

/-- The `DataFormat` child of the bad footer. -/
def badDF : XNode :=
  match badRoot.findChild "DataFormat".toList with
  | some d => d
  | none => .text []

/-- The frame block of the bad footer. -/
def badDB : XNode :=
  match badDF.findChild "DataBlock".toList with
  | some d => d
  | none => .text []

/-- C3 witness: decoding the concrete bad-pixel-format file stops at the
frame-layout stage with the pixel-format error. -/
theorem c3_witness :
    readDataTraced badPixelFile =
      ([.version, .footer, .wavelengths, .framesInfo],
        .error (.unsupportedPixelFormat "Foo".toList)) :=
  c3_theorem badPixelFile (.finite 3) badRoot badRoot badDF badDB [1, mkRat 5 2]
    "2".toList "Foo".toList 2 stepVersion_bad stepFooter_bad stepWavelengths_bad
    rfl rfl rfl rfl rfl rfl rfl rfl

/-- Inversion of a successful reshape: the dimensions were nonnegative, the
flat length was exactly `height * width`, and the rows are `chunkRows`. -/
theorem reshape2_ok_inv (l : List Nat) (hw : Int × Int) (rows : List (List Nat))
    (h : reshape2 l hw = .ok rows) :
    0 ≤ hw.1 ∧ 0 ≤ hw.2 ∧ l.length = hw.1.toNat * hw.2.toNat ∧
    rows = chunkRows hw.2.toNat l := by
  unfold reshape2 at h
  split at h
  · rename_i hc
    exact ⟨hc.1, hc.2.1, hc.2.2, (Except.ok.injEq _ _).mp h |>.symm⟩
  · exact absurd h (by simp)

/-- Row structure of `chunkRowsAux` when the flat length is an exact
multiple of a positive width and the fuel suffices. -/
theorem chunkRowsAux_spec (w : Nat) (hw : 0 < w) :
    ∀ (h : Nat) (l : List Nat) (fuel : Nat), l.length = h * w → l.length ≤ fuel →
      (chunkRowsAux w fuel l).length = h ∧
      ∀ row ∈ chunkRowsAux w fuel l, row.length = w := by
  intro h
  induction h with
  | zero =>
    intro l fuel hl hf
    have hnil : l = [] := List.eq_nil_of_length_eq_zero (by simpa using hl)
    subst hnil
    cases fuel with
    | zero => exact ⟨rfl, by intro row hr; simp [chunkRowsAux] at hr⟩
    | succ f => exact ⟨rfl, by intro row hr; simp [chunkRowsAux] at hr⟩
  | succ h ih =>
    intro l fuel hl hf
    have hpos : 0 < (h + 1) * w := Nat.mul_pos (Nat.succ_pos h) hw
    cases l with
    | nil => rw [List.length_nil] at hl; omega
    | cons x xs =>
      cases fuel with
      | zero => simp at hf
      | succ f =>
        have hlen : (x :: xs).length = (h + 1) * w := hl
        have hwle : w ≤ (x :: xs).length := by
          rw [hlen, Nat.succ_mul]
          omega
        have hdrop : ((x :: xs).drop w).length = h * w := by
          rw [List.length_drop, hlen, Nat.succ_mul]
          omega
        have hfuel : ((x :: xs).drop w).length ≤ f := by
          rw [List.length_drop]
          have := List.length_cons x xs ▸ hf
          omega
        obtain ⟨ih1, ih2⟩ := ih ((x :: xs).drop w) f hdrop hfuel
        rw [chunkRowsAux]
        refine ⟨by simp [ih1], ?_⟩
        intro row hr
        rcases List.mem_cons.mp hr with htake | hrest
        · rw [htake, List.length_take]
          omega
        · exact ih2 row hrest

/-- Row structure of `chunkRows`. -/
theorem chunkRows_spec (w h : Nat) (l : List Nat) (hw : 0 < w)
    (hl : l.length = h * w) :
    (chunkRows w l).length = h ∧ ∀ row ∈ chunkRows w l, row.length = w :=
  chunkRowsAux_spec w hw h l l.length hl le_rfl

/-- `int(frameSize / nbytes)` when `frameSize = height * width * nbytes`
with nonnegative dimensions: exactly `height * width`. -/
theorem elemsCount_mul (h w : Int) (t : NType) (hh : 0 ≤ h) (hw : 0 ≤ w) :
    elemsCount (h * w * t.nbytes) t = ((h.toNat * w.toNat : Nat) : Int) := by
  obtain ⟨a, rfl⟩ : ∃ a : Nat, h = (a : Int) := ⟨h.toNat, (Int.toNat_of_nonneg hh).symm⟩
  obtain ⟨b, rfl⟩ : ∃ b : Nat, w = (b : Int) := ⟨w.toNat, (Int.toNat_of_nonneg hw).symm⟩
  unfold elemsCount intTruncDiv
  rw [if_pos (by positivity)]
  have h1 : ((a : Int) * b * t.nbytes).toNat = a * b * t.nbytes := by
    rw [show ((a : Int) * b * t.nbytes) = ((a * b * t.nbytes : Nat) : Int) by push_cast; ring,
      Int.toNat_natCast]
  rw [h1, Nat.mul_div_cancel _ t.nbytes_pos]
  simp [Int.toNat_natCast]

/-- Inversion of a successful frame loop: there are exactly `n` frames and
frame `i` is the reshape of the `i`-th read. -/
theorem readFramesUpTo_ok_inv (file : List Nat) (dt : NType) (fs stride : Int)
    (hw : Int × Int) :
    ∀ (n : Nat) (frames : List (List (List Nat))),
      readFramesUpTo file dt fs stride hw n = .ok frames →
      frames.length = n ∧
      ∀ i, i < n → ∃ raw,
        readFrame file dt fs stride i = .ok raw ∧
        reshape2 raw hw = .ok (chunkRows hw.2.toNat raw) ∧
        frames[i]? = some (chunkRows hw.2.toNat raw) := by
  intro n
  induction n with
  | zero =>
    intro frames h
    rw [readFramesUpTo] at h
    refine ⟨by simp [((Except.ok.injEq _ _).mp h).symm], by omega⟩
  | succ n ih =>
    intro frames h
    rw [readFramesUpTo] at h
    cases hp : readFramesUpTo file dt fs stride hw n with
    | error e => simp [hp] at h
    | ok prev =>
      simp only [hp] at h
      cases hr : readFrame file dt fs stride n with
      | error e => simp [hr] at h
      | ok raw =>
        simp only [hr] at h
        cases hs : reshape2 raw hw with
        | error e => simp [hs] at h
        | ok fr =>
          simp only [hs] at h
          have hfr : frames = prev ++ [fr] := ((Except.ok.injEq _ _).mp h).symm
          obtain ⟨ih1, ih2⟩ := ih prev hp
          obtain ⟨-, -, -, hfr2⟩ := reshape2_ok_inv raw hw fr hs
          subst hfr hfr2
          constructor
          · simp [ih1]
          · intro i hi
            rcases Nat.lt_succ_iff_lt_or_eq.mp hi with hlt | rfl
            · obtain ⟨raw2, k1, k2, k3⟩ := ih2 i hlt
              exact ⟨raw2, k1, k2, by
                rw [List.getElem?_append_left (by omega), k3]⟩
            · refine ⟨raw, hr, hs, ?_⟩
              rw [← ih1, List.getElem?_concat_length]

/-- Inversion of a successful decode: every stage succeeded and the stored
attributes are exactly the stage results. -/
theorem readDataTraced_ok_inv (file : List Nat) (st : DecodedState)
    (h : (readDataTraced file).2 = .ok st) :
    stepVersion file = .ok st.SPEversion ∧
    stepFooter file = .ok st.footerInfo ∧
    stepWavelengths st.footerInfo = .ok st.wavelength ∧
    stepFramesInfo st.footerInfo =
      .ok ⟨st.nbOfFrames, st.dataType, st.frameSize, st.frameStride⟩ ∧
    stepRegionSize st.footerInfo = .ok st.regionSize ∧
    stepExposure st.footerInfo = .ok st.exposureTime ∧
    stepArray file ⟨st.nbOfFrames, st.dataType, st.frameSize, st.frameStride⟩
      st.regionSize = .ok st.data := by
  unfold readDataTraced at h
  cases h1 : stepVersion file with
  | error e => simp [h1] at h
  | ok v =>
    simp only [h1] at h
    cases h2 : stepFooter file with
    | error e => simp [h2] at h
    | ok root =>
      simp only [h2] at h
      cases h3 : stepWavelengths root with
      | error e => simp [h3] at h
      | ok wl =>
        simp only [h3] at h
        cases h4 : stepFramesInfo root with
        | error e => simp [h4] at h
        | ok fi =>
          simp only [h4] at h
          cases h5 : stepRegionSize root with
          | error e => simp [h5] at h
          | ok hw =>
            simp only [h5] at h
            cases h6 : stepExposure root with
            | error e => simp [h6] at h
            | ok et =>
              simp only [h6] at h
              cases h7 : stepArray file fi hw with
              | error e => simp [h7] at h
              | ok frames =>
                simp only [h7] at h
                have hst : st = ⟨v, root, wl, fi.count, fi.dataType, fi.frameSize,
                    fi.frameStride, hw, et, frames⟩ :=
                  ((Except.ok.injEq _ _).mp h).symm
                subst hst
                exact ⟨rfl, rfl, h3, h4, h5, h6, h7⟩

/-- Inversion of a successful single-frame read: the seek position was
nonnegative and the result is the typed read of `int(frameSize / nbytes)`
elements at `DATAOFFSET + i * frameStride`. -/
theorem readFrame_ok_inv (file : List Nat) (dt : NType) (fs stride : Int) (i : Nat)
    (raw : List Nat) (h : readFrame file dt fs stride i = .ok raw) :
    0 ≤ DATAOFFSET + (i : Int) * stride ∧
    raw = fromfileI file (DATAOFFSET + (i : Int) * stride).toNat dt (elemsCount fs dt) := by
  simp only [readFrame] at h
  split at h
  · exact absurd h (by simp)
  · rename_i hneg
    exact ⟨by omega, ((Except.ok.injEq _ _).mp h).symm⟩

/-- C1: on a valid file (decode succeeded, nonnegative frame count,
`frameSize = height * width * nbytes` with a nonnegative height and positive
width), the frame count stored in the result equals the `count` attribute
extracted from the frame block, and frame `i` is exactly the row-major
`(height, width)` reshape of the `frameSize / sizeof(elementType)` elements
read at absolute byte position `4100 + i * frameStride`. -/
theorem c1_theorem (file : List Nat) (st : DecodedState)
    (hok : readData file = .ok st)
    (hcount : 0 ≤ st.nbOfFrames)
    (hsize : st.frameSize = st.regionSize.1 * st.regionSize.2 * st.dataType.nbytes)
    (hh : 0 ≤ st.regionSize.1) (hwpos : 0 < st.regionSize.2) :
    stepFramesInfo st.footerInfo =
      .ok ⟨st.nbOfFrames, st.dataType, st.frameSize, st.frameStride⟩ ∧
    (st.data.length : Int) = st.nbOfFrames ∧
    ∀ i, i < st.nbOfFrames.toNat → ∃ raw : List Nat,
      readFrame file st.dataType st.frameSize st.frameStride i = .ok raw ∧
      raw = fromfileI file (DATAOFFSET + (i : Int) * st.frameStride).toNat
        st.dataType (elemsCount st.frameSize st.dataType) ∧
      elemsCount st.frameSize st.dataType =
        ((st.regionSize.1.toNat * st.regionSize.2.toNat : Nat) : Int) ∧
      raw.length = st.regionSize.1.toNat * st.regionSize.2.toNat ∧
      st.data[i]? = some (chunkRows st.regionSize.2.toNat raw) ∧
      (chunkRows st.regionSize.2.toNat raw).length = st.regionSize.1.toNat ∧
      ∀ row ∈ chunkRows st.regionSize.2.toNat raw,
        row.length = st.regionSize.2.toNat := by
  obtain ⟨-, -, -, h4, -, -, h7⟩ := readDataTraced_ok_inv file st hok
  have harr : readFramesUpTo file st.dataType st.frameSize st.frameStride
      st.regionSize st.nbOfFrames.toNat = .ok st.data := h7
  obtain ⟨hlen, hframes⟩ := readFramesUpTo_ok_inv file st.dataType st.frameSize
    st.frameStride st.regionSize st.nbOfFrames.toNat st.data harr
  have helems : elemsCount st.frameSize st.dataType =
      ((st.regionSize.1.toNat * st.regionSize.2.toNat : Nat) : Int) := by
    rw [hsize]
    exact elemsCount_mul st.regionSize.1 st.regionSize.2 st.dataType hh (le_of_lt hwpos)
  refine ⟨h4, by rw [hlen, Int.toNat_of_nonneg hcount], ?_⟩
  intro i hi
  obtain ⟨raw, hread, hresh, hget⟩ := hframes i hi
  obtain ⟨hpos, hraw⟩ := readFrame_ok_inv file st.dataType st.frameSize
    st.frameStride i raw hread
  obtain ⟨-, -, hrawlen, -⟩ := reshape2_ok_inv raw st.regionSize _ hresh
  have hwid : 0 < st.regionSize.2.toNat := by omega
  obtain ⟨hrows, hcols⟩ := chunkRows_spec st.regionSize.2.toNat
    st.regionSize.1.toNat raw hwid hrawlen
  exact ⟨raw, hread, hraw, helems, hrawlen, hget, hrows, hcols⟩

/-- C1 witness: the claim instantiated on the concrete valid file
`goodFile`, whose decode succeeded with 2 frames. -/
theorem c1_witness :
    stepFramesInfo goodState.footerInfo =
      .ok ⟨goodState.nbOfFrames, goodState.dataType, goodState.frameSize,
        goodState.frameStride⟩ ∧
    (goodState.data.length : Int) = goodState.nbOfFrames ∧
    ∀ i, i < goodState.nbOfFrames.toNat → ∃ raw : List Nat,
      readFrame goodFile goodState.dataType goodState.frameSize
        goodState.frameStride i = .ok raw ∧
      raw = fromfileI goodFile
        (DATAOFFSET + (i : Int) * goodState.frameStride).toNat
        goodState.dataType (elemsCount goodState.frameSize goodState.dataType) ∧
      elemsCount goodState.frameSize goodState.dataType =
        ((goodState.regionSize.1.toNat * goodState.regionSize.2.toNat : Nat) : Int) ∧
      raw.length = goodState.regionSize.1.toNat * goodState.regionSize.2.toNat ∧
      goodState.data[i]? = some (chunkRows goodState.regionSize.2.toNat raw) ∧
      (chunkRows goodState.regionSize.2.toNat raw).length =
        goodState.regionSize.1.toNat ∧
      ∀ row ∈ chunkRows goodState.regionSize.2.toNat raw,
        row.length = goodState.regionSize.2.toNat :=
  c1_theorem goodFile goodState readData_good (by decide) (by decide) (by decide)
    (by decide)

/-! ## Round trip of the metadata parser and serializer

The serializer is a left inverse of the parser on every successfully parsed
document: re-parsing `xmlSerialize root` returns `root` again, with tag
names, attribute lists, text content and child order intact.  The proof goes
through a well-formedness predicate that every parse result satisfies and
that makes the serialized text parse back uniquely. -/

/-- The first node, if any, is not a text segment (adjacent text segments
would merge when re-parsed, so parse results never contain them). -/
def headNotText : List XNode → Prop
  | .text _ :: _ => False
  | _ => True

mutual

/-- Well-formed node: names are nonempty and made of name characters,
attribute values contain no double quote, text is nonempty and contains no
`<`. -/
def WFnode : XNode → Prop
  | .elem t as cs =>
    t ≠ [] ∧ (∀ c ∈ t, nameChar c = true) ∧
    (∀ p ∈ as, p.1 ≠ [] ∧ (∀ c ∈ p.1, nameChar c = true) ∧ ∀ c ∈ p.2, c ≠ '\"') ∧
    WFnodes cs
  | .text s => s ≠ [] ∧ ∀ c ∈ s, c ≠ '<'

/-- Well-formed sibling list: every node is well formed and no text segment
is followed by another text segment. -/
def WFnodes : List XNode → Prop
  | [] => True
  | .text s :: rest =>
    (s ≠ [] ∧ ∀ c ∈ s, c ≠ '<') ∧ headNotText rest ∧ WFnodes rest
  | .elem t as cs :: rest => WFnode (.elem t as cs) ∧ WFnodes rest

end

/-- Well-formed attribute list. -/
def WFattrs (as : List (List Char × List Char)) : Prop :=
  ∀ p ∈ as, p.1 ≠ [] ∧ (∀ c ∈ p.1, nameChar c = true) ∧ ∀ c ∈ p.2, c ≠ '\"'

/-- `takeWhile`/`dropWhile` over a block that satisfies the predicate
followed by a character that does not. -/
theorem takeWhile_append_cons (p : Char → Bool) (xs : List Char) (y : Char)
    (ys : List Char) (h1 : ∀ x ∈ xs, p x = true) (h2 : p y = false) :
    (xs ++ y :: ys).takeWhile p = xs ∧ (xs ++ y :: ys).dropWhile p = y :: ys := by
  induction xs with
  | nil => simp [List.takeWhile, List.dropWhile, h2]
  | cons x xs ih =>
    have hx : p x = true := h1 x (by simp)
    obtain ⟨ih1, ih2⟩ := ih (fun a ha => h1 a (by simp [ha]))
    constructor
    · simp only [List.cons_append, List.takeWhile_cons, hx, if_true, ih1]
    · simp only [List.cons_append, List.dropWhile_cons, hx, if_true, ih2]

/-- `takeWhile`/`dropWhile` over a list that satisfies the predicate
throughout. -/
theorem takeWhile_all (p : Char → Bool) (xs : List Char)
    (h1 : ∀ x ∈ xs, p x = true) :
    xs.takeWhile p = xs ∧ xs.dropWhile p = [] := by
  induction xs with
  | nil => simp
  | cons x xs ih =>
    have hx : p x = true := h1 x (by simp)
    obtain ⟨ih1, ih2⟩ := ih (fun a ha => h1 a (by simp [ha]))
    constructor
    · simp only [List.takeWhile_cons, hx, if_true, ih1]
    · simp only [List.dropWhile_cons, hx, if_true, ih2]

/-- One step of `parseAttrs` on input beginning with a space, written
without `match` sugar for rewriting. -/
theorem parseAttrs_step (f : Nat) (cs : List Char) :
    parseAttrs (f + 1) (' ' :: cs) =
      (if cs.takeWhile nameChar = [] then none
       else
        match cs.dropWhile nameChar with
        | '=' :: '\"' :: rest2 =>
          match rest2.dropWhile (fun d => d ≠ '\"') with
          | '\"' :: rest3 =>
            match parseAttrs f rest3 with
            | some (attrs, rest4) =>
              some ((cs.takeWhile nameChar,
                rest2.takeWhile (fun d => d ≠ '\"')) :: attrs, rest4)
            | none => none
          | _ => none
        | _ => none) := rfl

/-- Serialized attributes parse back to themselves, leaving the closing
`>` (and everything after it) untouched. -/
theorem parseAttrs_serialize (as : List (List Char × List Char)) :
    ∀ (rest : List Char) (fuel : Nat), WFattrs as → as.length + 1 ≤ fuel →
      parseAttrs fuel (serializeAttrs as ++ '>' :: rest) = some (as, '>' :: rest) := by
  induction as with
  | nil =>
    intro rest fuel hwf hfuel
    match fuel, hfuel with
    | f + 1, _ => rfl
  | cons a as ih =>
    intro rest fuel hwf hfuel
    obtain ⟨n, v⟩ := a
    obtain ⟨hn1, hn2, hv⟩ := hwf (n, v) (by simp)
    match fuel, hfuel with
    | f + 1, hfuel =>
      have hshape : serializeAttrs ((n, v) :: as) ++ '>' :: rest =
          ' ' :: (n ++ '=' :: ('\"' :: (v ++ '\"' :: (serializeAttrs as ++ '>' :: rest)))) := by
        simp [serializeAttrs, List.append_assoc]
      rw [hshape, parseAttrs_step]
      obtain ⟨ht, hd⟩ := takeWhile_append_cons nameChar n '='
        ('\"' :: (v ++ '\"' :: (serializeAttrs as ++ '>' :: rest))) hn2 (by decide)
      rw [ht, hd, if_neg (by simpa using hn1)]
      have hv2 : ∀ x ∈ v, (fun d => decide (d ≠ '\"')) x = true := by
        intro x hx
        simpa using hv x hx
      obtain ⟨ht2, hd2⟩ := takeWhile_append_cons (fun d => decide (d ≠ '\"')) v '\"'
        (serializeAttrs as ++ '>' :: rest) hv2 (by decide)
      simp only [hd2, ht2, ih rest f (fun p hp => hwf p (by simp [hp]))
        (by simp only [List.length_cons] at hfuel; omega)]

/-- One step of `parseNodes` on empty input. -/
theorem parseNodes_nil (f : Nat) : parseNodes (f + 1) [] = some ([], []) := rfl

/-- One step of `parseNodes` on a cons, written without sugar for
rewriting. -/
theorem parseNodes_cons (f : Nat) (c : Char) (cs : List Char) :
    parseNodes (f + 1) (c :: cs) =
      if c = '<' then
        match cs with
        | '/' :: _ => some ([], c :: cs)
        | _ =>
          match parseElem f (c :: cs) with
          | some (e, rest) =>
            match parseNodes f rest with
            | some (ns, rest2) => some (e :: ns, rest2)
            | none => none
          | none => none
      else
        match parseNodes f ((c :: cs).dropWhile (fun d => d ≠ '<')) with
        | some (ns, rest) =>
          some (.text ((c :: cs).takeWhile (fun d => d ≠ '<')) :: ns, rest)
        | none => none := rfl

/-- One step of `parseElem` on input beginning with `<`, written without
sugar for rewriting. -/
theorem parseElem_step (f : Nat) (cs : List Char) :
    parseElem (f + 1) ('<' :: cs) =
      (if cs.takeWhile nameChar = [] then none
       else
        match parseAttrs f (cs.dropWhile nameChar) with
        | some (attrs, rest2) =>
          match rest2 with
          | '>' :: rest3 =>
            match parseNodes f rest3 with
            | some (children, rest4) =>
              match rest4 with
              | '<' :: '/' :: rest5 =>
                if rest5.takeWhile nameChar = cs.takeWhile nameChar then
                  match rest5.dropWhile nameChar with
                  | '>' :: rest6 =>
                    some (.elem (cs.takeWhile nameChar) attrs children, rest6)
                  | _ => none
                else none
              | _ => none
            | none => none
          | _ => none
        | none => none) := rfl

mutual

/-- Node sizes, used as fuel bounds for the parser. -/
def nsize : XNode → Nat
  | .elem _ as cs => as.length + nssize cs + 2
  | .text _ => 1

/-- Size of a sibling list (a leading text segment costs one step). -/
def nssize : List XNode → Nat
  | [] => 1
  | .text _ :: ns => nssize ns + 1
  | n :: ns => nsize n + nssize ns + 1

end

/-- Sibling lists have positive size. -/
theorem nssize_pos (ns : List XNode) : 1 ≤ nssize ns := by
  cases ns with
  | nil => simp [nssize]
  | cons n ns => cases n <;> simp [nssize]

/-- Splitting a serialized tag name from what follows it (the attribute
block and `>`). -/
theorem name_split (t : List Char) (as : List (List Char × List Char)) (X : List Char)
    (ht : ∀ c ∈ t, nameChar c = true) :
    (t ++ (serializeAttrs as ++ '>' :: X)).takeWhile nameChar = t ∧
    (t ++ (serializeAttrs as ++ '>' :: X)).dropWhile nameChar =
      serializeAttrs as ++ '>' :: X := by
  cases as with
  | nil =>
    simpa [serializeAttrs] using takeWhile_append_cons nameChar t '>' X ht (by decide)
  | cons a as2 =>
    have hsh : t ++ (serializeAttrs (a :: as2) ++ '>' :: X) =
        t ++ ' ' :: ((a.1 ++ '=' :: '\"' :: (a.2 ++ '\"' :: serializeAttrs as2)) ++
          '>' :: X) := by
      cases a
      simp [serializeAttrs, List.append_assoc]
    obtain ⟨h1, h2⟩ := takeWhile_append_cons nameChar t ' '
      ((a.1 ++ '=' :: '\"' :: (a.2 ++ '\"' :: serializeAttrs as2)) ++ '>' :: X)
      ht (by decide)
    rw [hsh, h1, h2]
    refine ⟨rfl, ?_⟩
    cases a
    simp [serializeAttrs, List.append_assoc]

/-- Splitting a serialized text segment from what follows it (nothing, or a
tag opener). -/
theorem text_split (s X : List Char) (hs : ∀ c ∈ s, c ≠ '<')
    (hX : X = [] ∨ ∃ X2, X = '<' :: X2) :
    (s ++ X).takeWhile (fun d => decide (d ≠ '<')) = s ∧
    (s ++ X).dropWhile (fun d => decide (d ≠ '<')) = X := by
  have hall : ∀ x ∈ s, (fun d => decide (d ≠ '<')) x = true := fun x hx => by
    simpa using hs x hx
  rcases hX with rfl | ⟨X2, rfl⟩
  · simpa using takeWhile_all _ s hall
  · exact takeWhile_append_cons _ s '<' X2 hall (by decide)

mutual

/-- A serialized well-formed element parses back to itself, whatever
follows it. -/
theorem serializeElem_parse (t : List Char) (as : List (List Char × List Char))
    (cs : List XNode) (rest : List Char) (fuel : Nat)
    (hwf : WFnode (.elem t as cs)) (hfuel : nsize (.elem t as cs) ≤ fuel) :
    parseElem fuel (serializeNode (.elem t as cs) ++ rest) =
      some (.elem t as cs, rest) := by
  rw [WFnode] at hwf
  obtain ⟨ht1, ht2, hattrs, hcs⟩ := hwf
  rw [nsize] at hfuel
  match fuel, hfuel with
  | f + 1, hfuel =>
    have hshape : serializeNode (.elem t as cs) ++ rest =
        '<' :: (t ++ (serializeAttrs as ++ '>' ::
          (serializeNodes cs ++ '<' :: '/' :: (t ++ '>' :: rest)))) := by
      simp [serializeNode, List.append_assoc]
    rw [hshape, parseElem_step]
    obtain ⟨hn1, hn2⟩ := name_split t as
      (serializeNodes cs ++ '<' :: '/' :: (t ++ '>' :: rest)) ht2
    rw [hn1, hn2, if_neg ht1]
    have hrec := serializeNodes_parse cs ('<' :: '/' :: (t ++ '>' :: rest)) f hcs
      (by have := nssize_pos cs; omega) (Or.inr ⟨t ++ '>' :: rest, rfl⟩)
    obtain ⟨he1, he2⟩ := takeWhile_append_cons nameChar t '>' rest ht2 (by decide)
    simp only [parseAttrs_serialize as _ f hattrs (by have := nssize_pos cs; omega),
      hrec, he1, he2, eq_self_iff_true, if_true]

/-- A serialized well-formed sibling list parses back to itself when what
follows is nothing or a closing tag. -/
theorem serializeNodes_parse (ns : List XNode) (rest : List Char) (fuel : Nat)
    (hwf : WFnodes ns) (hfuel : nssize ns ≤ fuel)
    (hrest : rest = [] ∨ ∃ r2, rest = '<' :: '/' :: r2) :
    parseNodes fuel (serializeNodes ns ++ rest) = some (ns, rest) := by
  have hf1 : 1 ≤ fuel := le_trans (nssize_pos ns) hfuel
  match fuel, hf1 with
  | f + 1, _ =>
    cases ns with
    | nil =>
      rcases hrest with rfl | ⟨r2, rfl⟩
      · rfl
      · rfl
    | cons n ns2 =>
      cases n with
      | text s =>
        rw [WFnodes] at hwf
        obtain ⟨⟨hs1, hs2⟩, hnt, hns2⟩ := hwf
        have hXh : serializeNodes ns2 ++ rest = [] ∨
            ∃ X2, serializeNodes ns2 ++ rest = '<' :: X2 := by
          cases ns2 with
          | nil =>
            rcases hrest with rfl | ⟨r2, rfl⟩
            · exact Or.inl (by simp [serializeNodes])
            · exact Or.inr ⟨'/' :: r2, by simp [serializeNodes]⟩
          | cons m ms =>
            cases m with
            | text s3 => exact hnt.elim
            | elem t3 as3 cs3 =>
              refine Or.inr ⟨t3 ++ (serializeAttrs as3 ++ '>' ::
                (serializeNodes cs3 ++ '<' :: '/' ::
                  (t3 ++ '>' :: (serializeNodes ms ++ rest)))), ?_⟩
              simp [serializeNodes, serializeNode, List.append_assoc]
        cases s with
        | nil => exact absurd rfl hs1
        | cons c0 s2 =>
          have hc0 : ¬ (c0 = '<') := by
            have := hs2 c0 (by simp)
            simpa using this
          have hshape : serializeNodes (.text (c0 :: s2) :: ns2) ++ rest =
              c0 :: (s2 ++ (serializeNodes ns2 ++ rest)) := by
            simp [serializeNodes, serializeNode, List.append_assoc]
          rw [hshape, parseNodes_cons, if_neg hc0]
          obtain ⟨htk, hdr⟩ := text_split (c0 :: s2) (serializeNodes ns2 ++ rest)
            hs2 hXh
          rw [show c0 :: (s2 ++ (serializeNodes ns2 ++ rest)) =
            (c0 :: s2) ++ (serializeNodes ns2 ++ rest) from by simp, htk, hdr]
          have hne := serializeNodes_parse ns2 rest f hns2
            (by simp only [nssize, nsize] at hfuel; omega) hrest
          simp only [hne]
      | elem t3 as3 cs3 =>
        rw [WFnodes] at hwf
        obtain ⟨hn, hns2⟩ := hwf
        have ht3ne : t3 ≠ [] := by
          rw [WFnode] at hn
          exact hn.1
        obtain ⟨c1, t4, rfl⟩ : ∃ c1 t4, t3 = c1 :: t4 := by
          cases t3 with
          | nil => exact absurd rfl ht3ne
          | cons a b => exact ⟨a, b, rfl⟩
        have hc1 : nameChar c1 = true := by
          rw [WFnode] at hn
          exact hn.2.1 c1 (by simp)
        have hshape : serializeNodes (.elem (c1 :: t4) as3 cs3 :: ns2) ++ rest =
            '<' :: (c1 :: (t4 ++ (serializeAttrs as3 ++ '>' ::
              (serializeNodes cs3 ++ '<' :: '/' ::
                ((c1 :: t4) ++ '>' :: (serializeNodes ns2 ++ rest)))))) := by
          simp [serializeNodes, serializeNode, List.append_assoc]
        have hser : ('<' : Char) :: (c1 :: (t4 ++ (serializeAttrs as3 ++ '>' ::
            (serializeNodes cs3 ++ '<' :: '/' ::
              ((c1 :: t4) ++ '>' :: (serializeNodes ns2 ++ rest)))))) =
            serializeNode (.elem (c1 :: t4) as3 cs3) ++
              (serializeNodes ns2 ++ rest) := by
          simp [serializeNode, List.append_assoc]
        rw [hshape, parseNodes_cons, if_pos rfl]
        have hpe := serializeElem_parse (c1 :: t4) as3 cs3
          (serializeNodes ns2 ++ rest) f hn
          (by simp only [nssize, nsize] at hfuel ⊢; omega)
        rw [← List.cons_append, ← List.cons_append] at hser
        have hne := serializeNodes_parse ns2 rest f hns2
          (by simp only [nssize, nsize] at hfuel; omega) hrest
        split
        · rename_i heq
          injection heq with h1 h2
          rw [h1] at hc1
          exact absurd hc1 (by decide)
        · rw [show ('<' : Char) :: (c1 :: (t4 ++ (serializeAttrs as3 ++ '>' ::
            (serializeNodes cs3 ++ '<' :: '/' ::
              ((c1 :: t4) ++ '>' :: (serializeNodes ns2 ++ rest)))))) =
            serializeNode (.elem (c1 :: t4) as3 cs3) ++
              (serializeNodes ns2 ++ rest) from hser]
          rw [hpe]
          simp only [hne]

end

/-- What remains after dropping characters that satisfy `p` is empty or
starts with `<`, whenever only `<` can fail `p`. -/
theorem dropWhile_head_lt (p : Char → Bool) (hp : ∀ c, p c = false → c = '<')
    (l : List Char) :
    l.dropWhile p = [] ∨ ∃ l2, l.dropWhile p = '<' :: l2 := by
  induction l with
  | nil => exact Or.inl rfl
  | cons c l ih =>
    by_cases hc : p c = true
    · simpa [List.dropWhile_cons, hc] using ih
    · have hc2 : c = '<' := hp c (by simpa using hc)
      subst hc2
      right
      refine ⟨l, ?_⟩
      rw [List.dropWhile_cons, if_neg (by simpa using hc)]

/-- `parseAttrs` on input that does not begin with a space: no attributes,
input untouched. -/
theorem parseAttrs_other (f : Nat) (c : Char) (cs2 : List Char) (hc : ¬ c = ' ') :
    parseAttrs (f + 1) (c :: cs2) = some ([], c :: cs2) := by
  rw [parseAttrs.eq_def]
  split
  · rename_i heq
    exact absurd heq (by omega)
  · split
    · rename_i heq
      exact absurd (List.head_eq_of_cons_eq heq) hc
    · rfl

/-- Every attribute list the parser returns is well formed. -/
theorem parseAttrs_wf (fuel : Nat) :
    ∀ (cs : List Char) (as : List (List Char × List Char)) (rest : List Char),
      parseAttrs fuel cs = some (as, rest) → WFattrs as := by
  induction fuel with
  | zero =>
    intro cs as rest h
    simp [parseAttrs] at h
  | succ f ih =>
    intro cs as rest h
    cases cs with
    | nil =>
      rw [show parseAttrs (f + 1) ([] : List Char) = some ([], []) from rfl] at h
      obtain ⟨h1, h2⟩ := (Prod.mk.injEq _ _ _ _).mp ((Option.some.injEq _ _).mp h)
      subst h1
      intro p hp
      simp at hp
    | cons c cs2 =>
      by_cases hc : c = ' '
      · subst hc
        rw [parseAttrs_step] at h
        split at h
        · simp at h
        · rename_i hguard
          split at h <;> first
            | (simp at h; done)
            | (split at h <;> first
                | (simp at h; done)
                | (split at h <;> first
                    | (simp at h; done)
                    | (rename_i hrec
                       obtain ⟨h1, h2⟩ := (Prod.mk.injEq _ _ _ _).mp
                         ((Option.some.injEq _ _).mp h)
                       subst h1
                       intro p hp
                       rcases List.mem_cons.mp hp with rfl | hp2
                       · exact ⟨by simpa using hguard,
                           fun ch hch => List.mem_takeWhile_imp hch,
                           fun ch hch => by
                             simpa using List.mem_takeWhile_imp hch⟩
                       · exact ih _ _ _ hrec p hp2)))
      · rw [parseAttrs_other f c cs2 hc] at h
        obtain ⟨h1, h2⟩ := (Prod.mk.injEq _ _ _ _).mp ((Option.some.injEq _ _).mp h)
        subst h1
        intro p hp
        simp at hp

/-- `parseElem` fails on input that does not begin with `<`. -/
theorem parseElem_other (f : Nat) (c : Char) (cs2 : List Char) (hc : ¬ c = '<') :
    parseElem (f + 1) (c :: cs2) = none := by
  rw [parseElem.eq_def]
  split
  · rename_i heq
    exact absurd heq (by omega)
  · split
    · rename_i heq
      exact absurd (List.head_eq_of_cons_eq heq) hc
    · rfl

/-- Everything the node/element parsers return is well formed; moreover a
node list parsed from input that is empty or starts with `<` never begins
with a text segment, and a parsed element really is an element. -/
theorem parse_wf (fuel : Nat) :
    (∀ cs ns rest, parseNodes fuel cs = some (ns, rest) →
      WFnodes ns ∧ ((cs = [] ∨ ∃ cs2, cs = '<' :: cs2) → headNotText ns)) ∧
    (∀ cs e rest, parseElem fuel cs = some (e, rest) →
      WFnode e ∧ ∃ t as c, e = .elem t as c) := by
  induction fuel with
  | zero =>
    constructor
    · intro cs ns rest h
      simp [parseNodes] at h
    · intro cs e rest h
      simp [parseElem] at h
  | succ f ih =>
    obtain ⟨ihN, ihE⟩ := ih
    constructor
    · intro cs ns rest h
      cases cs with
      | nil =>
        rw [parseNodes_nil] at h
        obtain ⟨h1, h2⟩ := (Prod.mk.injEq _ _ _ _).mp ((Option.some.injEq _ _).mp h)
        subst h1
        exact ⟨trivial, fun _ => trivial⟩
      | cons c cs2 =>
        rw [parseNodes_cons] at h
        by_cases hc : c = '<'
        · rw [if_pos hc] at h
          split at h
          · obtain ⟨h1, h2⟩ := (Prod.mk.injEq _ _ _ _).mp ((Option.some.injEq _ _).mp h)
            subst h1
            exact ⟨trivial, fun _ => trivial⟩
          · cases hpe : parseElem f (c :: cs2) with
            | none => simp [hpe] at h
            | some pr =>
              obtain ⟨e, restE⟩ := pr
              simp only [hpe] at h
              cases hpn : parseNodes f restE with
              | none => simp [hpn] at h
              | some pr2 =>
                obtain ⟨ns2, rest2⟩ := pr2
                simp only [hpn] at h
                obtain ⟨h1, h2⟩ := (Prod.mk.injEq _ _ _ _).mp
                  ((Option.some.injEq _ _).mp h)
                subst h1
                obtain ⟨hwe, t, as, ch, rfl⟩ := ihE _ _ _ hpe
                obtain ⟨hwns, -⟩ := ihN _ _ _ hpn
                refine ⟨?_, fun _ => trivial⟩
                rw [WFnodes]
                exact ⟨hwe, hwns⟩
        · rw [if_neg hc] at h
          split at h
          · rename_i ns2 rest2 hpn
            obtain ⟨h1, h2⟩ := (Prod.mk.injEq _ _ _ _).mp ((Option.some.injEq _ _).mp h)
            subst h1
            obtain ⟨hwns2, hhead⟩ := ihN _ _ _ hpn
            have hht : headNotText ns2 := by
              refine hhead (dropWhile_head_lt _ ?_ (c :: cs2))
              intro x hx
              simpa using hx
            constructor
            · rw [WFnodes]
              refine ⟨⟨?_, ?_⟩, hht, hwns2⟩
              · simp [List.takeWhile_cons, hc]
              · intro ch hch
                have := List.mem_takeWhile_imp hch
                simpa using this
            · rintro (heq | ⟨cs3, heq⟩)
              · exact absurd heq (by simp)
              · exact absurd (List.head_eq_of_cons_eq heq) hc
          · simp at h
    · intro cs e rest h
      cases cs with
      | nil =>
        rw [show parseElem (f + 1) ([] : List Char) = none from rfl] at h
        exact absurd h (by simp)
      | cons c cs2 =>
        by_cases hc : c = '<'
        · subst hc
          rw [parseElem_step] at h
          split at h
          · simp at h
          · rename_i hguard
            cases hpa : parseAttrs f (cs2.dropWhile nameChar) with
            | none => simp [hpa] at h
            | some pr =>
              obtain ⟨attrs, rest2⟩ := pr
              simp only [hpa] at h
              cases rest2 with
              | nil => simp at h
              | cons d rest3 =>
                by_cases hd : d = '>'
                · subst hd
                  cases hpn : parseNodes f rest3 with
                  | none => simp [hpn] at h
                  | some pr2 =>
                    obtain ⟨children, rest4⟩ := pr2
                    simp only [hpn] at h
                    split at h <;> first
                      | (simp at h; done)
                      | (split at h <;> first
                          | (simp at h; done)
                          | (split at h <;> first
                              | (simp at h; done)
                              | (obtain ⟨h1, h2⟩ := (Prod.mk.injEq _ _ _ _).mp
                                   ((Option.some.injEq _ _).mp h)
                                 subst h1
                                 refine ⟨?_, _, _, _, rfl⟩
                                 rw [WFnode]
                                 exact ⟨by simpa using hguard,
                                   fun ch hch => List.mem_takeWhile_imp hch,
                                   parseAttrs_wf f _ _ _ hpa,
                                   (ihN _ _ _ hpn).1⟩)))
                · -- rest2 does not start with '>': no result
                  have : (d :: rest3 : List Char) ≠ '>' :: rest3 := by
                    simp [hd]
                  cases hd2 : (d :: rest3 : List Char) with
                  | nil => simp at hd2
                  | cons d2 r2 => simp [← hd2, hd] at h
        · rw [parseElem_other f c cs2 hc] at h
          exact absurd h (by simp)

/-- Each serialized attribute occupies at least one character. -/
theorem serializeAttrs_len (as : List (List Char × List Char)) :
    as.length ≤ (serializeAttrs as).length := by
  induction as with
  | nil => simp [serializeAttrs]
  | cons a as ih =>
    obtain ⟨n, v⟩ := a
    simp only [serializeAttrs, List.length_cons, List.length_append]
    omega

mutual

/-- A well-formed element needs strictly less fuel than its serialized
length. -/
theorem nsize_le (t : List Char) (as : List (List Char × List Char))
    (cs : List XNode) (h : WFnode (.elem t as cs)) :
    nsize (.elem t as cs) + 1 ≤ (serializeNode (.elem t as cs)).length := by
  rw [WFnode] at h
  obtain ⟨-, -, -, hcs⟩ := h
  have h1 := nssize_le cs hcs
  have h2 := serializeAttrs_len as
  simp only [nsize, serializeNode, List.length_cons, List.length_append,
    List.length_nil] at h1 h2 ⊢
  omega

/-- A well-formed sibling list needs at most one more unit of fuel than its
serialized length. -/
theorem nssize_le (ns : List XNode) (h : WFnodes ns) :
    nssize ns ≤ (serializeNodes ns).length + 1 := by
  cases ns with
  | nil => simp [nssize, serializeNodes]
  | cons n ns2 =>
    cases n with
    | text s =>
      rw [WFnodes] at h
      obtain ⟨⟨hs1, -⟩, -, hns2⟩ := h
      have h1 : 1 ≤ s.length := by
        cases s with
        | nil => exact absurd rfl hs1
        | cons a b => simp
      have h2 := nssize_le ns2 hns2
      simp only [nssize, serializeNodes, serializeNode, List.length_append] at h2 ⊢
      omega
    | elem t3 as3 cs3 =>
      rw [WFnodes] at h
      obtain ⟨hn, hns2⟩ := h
      have h1 := nsize_le t3 as3 cs3 hn
      have h2 := nssize_le ns2 hns2
      simp only [nssize, serializeNodes, List.length_append] at h1 h2 ⊢
      omega

end

/-- Skipping the serializer-emitted prolog leaves the newline and the
payload. -/
theorem skipProlog_prolog (X : List Char) :
    skipProlog (xmlProlog ++ X) = some ('\n' :: X) := rfl

/-- Whatever `xmlParse` returns is a well-formed element. -/
theorem xmlParse_wf (cs : List Char) (root : XNode)
    (h : xmlParse cs = some root) :
    WFnode root ∧ ∃ t as c, root = XNode.elem t as c := by
  unfold xmlParse at h
  cases hsp : skipProlog cs with
  | none => simp [hsp] at h
  | some body =>
    simp only [hsp] at h
    cases hpe : parseElem (body.length + 1) (body.dropWhile isXmlWs) with
    | none => simp [hpe] at h
    | some pr =>
      obtain ⟨e, rest⟩ := pr
      simp only [hpe] at h
      split at h
      · cases h
        exact (parse_wf (body.length + 1)).2 _ _ _ hpe
      · simp at h

/-- `xmlParse` from the three pieces of a successful run. -/
theorem xmlParse_eq_of_parts (cs body : List Char) (r : XNode) (rest : List Char)
    (h1 : skipProlog cs = some body)
    (h2 : parseElem (body.length + 1) (body.dropWhile isXmlWs) = some (r, rest))
    (h3 : rest.dropWhile isXmlWs = []) :
    xmlParse cs = some r := by
  simp only [xmlParse, h1, h2, h3]
  simp

/-- C5: for every metadata byte string that parses successfully, re-parsing
the serialization of the parse result yields a structure identical to the
original parse result, with tag names, attribute lists, text content and
child order intact. -/
theorem c5_theorem (cs : List Char) (root : XNode)
    (h : xmlParse cs = some root) :
    xmlParse (xmlSerialize root) = some root := by
  obtain ⟨hwf, t, as, ch, rfl⟩ := xmlParse_wf cs root h
  have hser : serializeNode (XNode.elem t as ch) =
      '<' :: (t ++ serializeAttrs as ++ '>' ::
        (serializeNodes ch ++ '<' :: '/' :: (t ++ ['>']))) := rfl
  have hb : nsize (XNode.elem t as ch) ≤
      ('\n' :: serializeNode (XNode.elem t as ch)).length + 1 := by
    have := nsize_le t as ch hwf
    simp only [List.length_cons] at this ⊢
    omega
  have hpe := serializeElem_parse t as ch []
    (('\n' :: serializeNode (XNode.elem t as ch)).length + 1) hwf hb
  rw [List.append_nil] at hpe
  refine xmlParse_eq_of_parts _ ('\n' :: serializeNode (XNode.elem t as ch)) _ []
    (skipProlog_prolog _) ?_ rfl
  have hdw : ('\n' :: serializeNode (XNode.elem t as ch)).dropWhile isXmlWs =
      serializeNode (XNode.elem t as ch) := by
    rw [hser, List.dropWhile_cons, if_pos (by decide), List.dropWhile_cons,
      if_neg (by decide)]
  rw [hdw]
  exact hpe

/-- C5 witness: a concrete document that parses, whose parse result
round-trips through the serializer. -/
theorem c5_witness :
    xmlParse ("<a b=\"c\">hi</a>".toList) =
      some (XNode.elem ['a'] [(['b'], ['c'])] [XNode.text ['h', 'i']]) ∧
    xmlParse (xmlSerialize (XNode.elem ['a'] [(['b'], ['c'])] [XNode.text ['h', 'i']])) =
      some (XNode.elem ['a'] [(['b'], ['c'])] [XNode.text ['h', 'i']]) :=
  ⟨rfl, c5_theorem ("<a b=\"c\">hi</a>".toList)
    (XNode.elem ['a'] [(['b'], ['c'])] [XNode.text ['h', 'i']]) rfl⟩
